import Mathlib

/-!
Verification development for the TreasureHunt repository (src/game.py, the
canonical variant of the duplicated core; src/game2.py and src/test.py are
near-duplicates).

Embedding conventions:
* Python floats are embedded as exact rationals (ℚ); the float constants of
  the source (0.985, 0.35, 0.7, ...) are the corresponding rationals.
* `math.hypot(dx, dy)` (the nonnegative square root of dx²+dy²) is irrational
  in general.  Where the source only *compares* a hypot against a threshold we
  embed the comparison exactly by squaring (`hypotLe`, `hypotLt` below), which
  is equivalent for real numbers.  Where the source *uses* the value itself
  (`Game.resolve_coin_collision`), the embedding takes the distance as an
  explicit argument `dist`, and the theorems constrain it by
  `0 ≤ dist ∧ dist ^ 2 = dx ^ 2 + dy ^ 2`, i.e. to be exactly `math.hypot`.
  This keeps every definition computable over ℚ.
* Python object identity of `Treasure` objects is modelled by a numeric id
  field `tid`; ids are unique in every list the game constructs (each round
  creates a single treasure).
* `random.choice` / `random.shuffle` / `random.uniform` are modelled by an
  explicit oracle: the random data consumed by one frame is passed in as an
  `Oracle` value, so every possible outcome of the source's randomness is a
  possible oracle instantiation.
-/

namespace TreasureHunt

/- Batteries marks the ℚ field operations irreducible, which blocks `decide`
on concrete rational arithmetic; restore kernel-style reducibility for them. -/
attribute [local semireducible] Rat.add Rat.mul Rat.sub Rat.inv

/-! ### Configuration constants (src/game.py lines 15-29) -/

def gridRows : ℚ := 5
def gridCols : ℚ := 9
def cell : ℚ := 90
def margin : ℚ := 40
def width : ℚ := gridCols * cell + margin * 2
def height : ℚ := gridRows * cell + margin * 2 + 50
def roundsToWin : ℕ := 2
def friction : ℚ := 985 / 1000
def minSpeed : ℚ := 35 / 100
def stealDistance : ℚ := 33
def restitution : ℚ := 7 / 10
/-- `map_bottom = GRID_ROWS * CELL + MARGIN` (src/game.py line 107). -/
def mapBottom : ℚ := gridRows * cell + margin

/-- `grid_to_px(r, c)` (src/game.py line 50): pixel center of a grid cell.
`CELL // 2 = 45`. -/
def gridToPx (r c : ℚ) : ℚ × ℚ := (margin + c * cell + cell / 2, margin + r * cell + cell / 2)

/-! ### Exact embeddings of float comparisons against `math.hypot` -/

/-- `math.hypot dx dy <= t`, embedded exactly by squaring (hypot is the
nonnegative root of `dx^2 + dy^2`). -/
def hypotLe (dx dy t : ℚ) : Prop := 0 ≤ t ∧ dx * dx + dy * dy ≤ t * t

/-- `math.hypot dx dy < t`, embedded exactly by squaring. -/
def hypotLt (dx dy t : ℚ) : Prop := 0 < t ∧ dx * dx + dy * dy < t * t

instance (dx dy t : ℚ) : Decidable (hypotLe dx dy t) := instDecidableAnd
instance (dx dy t : ℚ) : Decidable (hypotLt dx dy t) := instDecidableAnd

/-- Boolean form of `hypotLe`, used inside the executable game step. -/
def hypotLeB (dx dy t : ℚ) : Bool := decide (hypotLe dx dy t)

/-- Boolean form of `hypotLt`. -/
def hypotLtB (dx dy t : ℚ) : Bool := decide (hypotLt dx dy t)

@[simp] theorem hypotLeB_eq_true_iff {dx dy t : ℚ} : hypotLeB dx dy t = true ↔ hypotLe dx dy t := by
  simp [hypotLeB]

@[simp] theorem hypotLtB_eq_true_iff {dx dy t : ℚ} : hypotLtB dx dy t = true ↔ hypotLt dx dy t := by
  simp [hypotLtB]

/-! ### pygame.Rect -/

/-- An axis-aligned rectangle, as `pygame.Rect(x, y, w, h)`. -/
structure Rect where
  left : ℚ
  top : ℚ
  w : ℚ
  h : ℚ
  deriving DecidableEq

/-- `Rect.collidepoint(x, y)`: a point along the right or bottom edge is not
inside (pygame's documented half-open behaviour). -/
def Rect.collidepoint (r : Rect) (x y : ℚ) : Bool :=
  decide (r.left ≤ x) && decide (x < r.left + r.w) &&
  decide (r.top ≤ y) && decide (y < r.top + r.h)

/-! ### Coin (src/game.py lines 74-149) -/

/-- The moving body.  `color` and the texture references are rendering-only
and omitted; `carrying` holds the id of the carried treasure object. -/
structure Coin where
  x : ℚ
  y : ℚ
  vx : ℚ
  vy : ℚ
  r : ℚ
  carrying : Option ℕ
  resting : Bool
  deriving DecidableEq

/-- Kernel-friendly absolute value on ℚ (the source's `abs`). -/
def qabs (x : ℚ) : ℚ := if x < 0 then -x else x

@[simp] theorem qabs_eq_abs (x : ℚ) : qabs x = |x| := by
  unfold qabs
  rcases lt_or_le x 0 with h | h
  · rw [if_pos h, abs_of_neg h]
  · rw [if_neg (not_lt.mpr h), abs_of_nonneg h]

/-- Kernel-friendly binary minimum on ℚ. -/
def qmin (a b : ℚ) : ℚ := if a ≤ b then a else b

@[simp] theorem qmin_eq_min (a b : ℚ) : qmin a b = min a b := by
  unfold qmin
  rcases le_or_lt a b with h | h
  · rw [if_pos h, min_eq_left h]
  · rw [if_neg (not_le.mpr h), min_eq_right h.le]

/-- `if self.x - self.r < MARGIN` (src/game.py line 109). -/
def bounceLeftWall (c : Coin) : Coin :=
  if c.x - c.r < margin then { c with x := margin + c.r, vx := c.vx * (-(7/10)) } else c

/-- `if self.x + self.r > WIDTH - MARGIN` (src/game.py line 113). -/
def bounceRightWall (c : Coin) : Coin :=
  if c.x + c.r > width - margin then
    { c with x := width - margin - c.r, vx := c.vx * (-(7/10)) } else c

/-- `if self.y - self.r < MARGIN` (src/game.py line 117). -/
def bounceTopWall (c : Coin) : Coin :=
  if c.y - c.r < margin then { c with y := margin + c.r, vy := c.vy * (-(7/10)) } else c

/-- `if self.y + self.r > map_bottom` (src/game.py line 121). -/
def bounceBottomWall (c : Coin) : Coin :=
  if c.y + c.r > mapBottom then
    { c with y := mapBottom - c.r, vy := c.vy * (-(7/10)) } else c

/-- The four sequential wall-bounce checks of `Coin.update`
(src/game.py lines 106-124).  Each edge is checked independently, on the
already-updated fields, exactly as the source's sequence of `if`s. -/
def wallBounce (c : Coin) : Coin :=
  bounceBottomWall (bounceTopWall (bounceRightWall (bounceLeftWall c)))

/-- One obstacle iteration of `Coin.update`'s `for rect in obstacles` loop
(src/game.py lines 127-149): center-point containment test, four penetration
depths, push-out along the minimum one with ties broken in the order
left, right, top, bottom. -/
def obstacleBounce (c : Coin) (rect : Rect) : Coin :=
  if rect.collidepoint c.x c.y then
    let dxLeft := qabs (rect.left - (c.x + c.r))
    let dxRight := qabs (rect.left + rect.w - (c.x - c.r))
    let dyTop := qabs (rect.top - (c.y + c.r))
    let dyBottom := qabs (rect.top + rect.h - (c.y - c.r))
    let m := qmin (qmin dxLeft dxRight) (qmin dyTop dyBottom)
    if m = dxLeft then { c with x := rect.left - c.r, vx := c.vx * (-(7/10)) }
    else if m = dxRight then { c with x := rect.left + rect.w + c.r, vx := c.vx * (-(7/10)) }
    else if m = dyTop then { c with y := rect.top - c.r, vy := c.vy * (-(7/10)) }
    else { c with y := rect.top + rect.h + c.r, vy := c.vy * (-(7/10)) }
  else c

/-- The movement part of `Coin.update` (src/game.py lines 100-104):
`resting = False`, displacement by the old velocity, then friction applied
after the displacement. -/
def integrate (c : Coin) : Coin :=
  { c with resting := false, x := c.x + c.vx, y := c.y + c.vy,
           vx := c.vx * friction, vy := c.vy * friction }

/-- `Coin.update(obstacles)` (src/game.py lines 93-149): the rest branch,
then integration, friction (after displacement), wall bounce, obstacle
bounce. -/
def coinUpdate (obstacles : List Rect) (c : Coin) : Coin :=
  if qabs c.vx < minSpeed ∧ qabs c.vy < minSpeed then
    { c with vx := 0, vy := 0, resting := true }
  else
    obstacles.foldl obstacleBounce (wallBounce (integrate c))

/-! ### Basic facts about the wall bounce and the rest branch -/

@[simp] theorem bounceLeftWall_r (c : Coin) : (bounceLeftWall c).r = c.r := by
  unfold bounceLeftWall
  split_ifs <;> rfl

@[simp] theorem bounceLeftWall_y (c : Coin) : (bounceLeftWall c).y = c.y := by
  unfold bounceLeftWall
  split_ifs <;> rfl

@[simp] theorem bounceLeftWall_vy (c : Coin) : (bounceLeftWall c).vy = c.vy := by
  unfold bounceLeftWall
  split_ifs <;> rfl

@[simp] theorem bounceRightWall_r (c : Coin) : (bounceRightWall c).r = c.r := by
  unfold bounceRightWall
  split_ifs <;> rfl

@[simp] theorem bounceRightWall_y (c : Coin) : (bounceRightWall c).y = c.y := by
  unfold bounceRightWall
  split_ifs <;> rfl

@[simp] theorem bounceRightWall_vy (c : Coin) : (bounceRightWall c).vy = c.vy := by
  unfold bounceRightWall
  split_ifs <;> rfl

@[simp] theorem bounceTopWall_r (c : Coin) : (bounceTopWall c).r = c.r := by
  unfold bounceTopWall
  split_ifs <;> rfl

@[simp] theorem bounceTopWall_x (c : Coin) : (bounceTopWall c).x = c.x := by
  unfold bounceTopWall
  split_ifs <;> rfl

@[simp] theorem bounceTopWall_vx (c : Coin) : (bounceTopWall c).vx = c.vx := by
  unfold bounceTopWall
  split_ifs <;> rfl

@[simp] theorem bounceBottomWall_r (c : Coin) : (bounceBottomWall c).r = c.r := by
  unfold bounceBottomWall
  split_ifs <;> rfl

@[simp] theorem bounceBottomWall_x (c : Coin) : (bounceBottomWall c).x = c.x := by
  unfold bounceBottomWall
  split_ifs <;> rfl

@[simp] theorem bounceBottomWall_vx (c : Coin) : (bounceBottomWall c).vx = c.vx := by
  unfold bounceBottomWall
  split_ifs <;> rfl

theorem bounceLeftWall_x_lb (c : Coin) : margin + c.r ≤ (bounceLeftWall c).x := by
  unfold bounceLeftWall
  split_ifs with h
  · simp
  · exact by linarith [not_lt.mp h]

theorem bounceRightWall_x (c : Coin) (hr : c.r ≤ 405) (hlb : margin + c.r ≤ c.x) :
    margin + c.r ≤ (bounceRightWall c).x ∧ (bounceRightWall c).x ≤ width - margin - c.r := by
  unfold bounceRightWall
  split_ifs with h
  · refine ⟨?_, le_refl _⟩
    show margin + c.r ≤ width - margin - c.r
    norm_num [margin, width, gridRows, gridCols, cell]
    linarith
  · exact ⟨hlb, by linarith [not_lt.mp h]⟩

theorem bounceTopWall_y_lb (c : Coin) : margin + c.r ≤ (bounceTopWall c).y := by
  unfold bounceTopWall
  split_ifs with h
  · simp
  · exact by linarith [not_lt.mp h]

theorem bounceBottomWall_y (c : Coin) (hr : c.r ≤ 205) (hlb : margin + c.r ≤ c.y) :
    margin + c.r ≤ (bounceBottomWall c).y ∧ (bounceBottomWall c).y ≤ mapBottom - c.r := by
  unfold bounceBottomWall
  split_ifs with h
  · refine ⟨?_, le_refl _⟩
    show margin + c.r ≤ mapBottom - c.r
    norm_num [margin, mapBottom, gridRows, cell]
    linarith
  · exact ⟨hlb, by linarith [not_lt.mp h]⟩

theorem wallBounce_bounds (c : Coin) (hr : c.r = 14) :
    margin + c.r ≤ (wallBounce c).x ∧ (wallBounce c).x ≤ width - margin - c.r ∧
    margin + c.r ≤ (wallBounce c).y ∧ (wallBounce c).y ≤ mapBottom - c.r := by
  unfold wallBounce
  have hx := bounceRightWall_x (bounceLeftWall c) (by norm_num [hr]) (by
    simpa using bounceLeftWall_x_lb c)
  have hy := bounceBottomWall_y (bounceTopWall (bounceRightWall (bounceLeftWall c)))
    (by norm_num [hr]) (by simpa using bounceTopWall_y_lb (bounceRightWall (bounceLeftWall c)))
  simp only [bounceBottomWall_x, bounceTopWall_x, bounceBottomWall_r, bounceTopWall_r,
    bounceRightWall_r, bounceLeftWall_r] at hx hy ⊢
  exact ⟨hx.1, hx.2, hy.1, hy.2⟩

theorem bounceLeftWall_vx_le (c : Coin) : |(bounceLeftWall c).vx| ≤ |c.vx| := by
  unfold bounceLeftWall
  split_ifs
  · show |c.vx * (-(7/10))| ≤ |c.vx|
    rw [abs_mul, show |(-(7/10) : ℚ)| = 7/10 by norm_num]
    nlinarith [abs_nonneg c.vx]
  · exact le_refl _

theorem bounceRightWall_vx_le (c : Coin) : |(bounceRightWall c).vx| ≤ |c.vx| := by
  unfold bounceRightWall
  split_ifs
  · show |c.vx * (-(7/10))| ≤ |c.vx|
    rw [abs_mul, show |(-(7/10) : ℚ)| = 7/10 by norm_num]
    nlinarith [abs_nonneg c.vx]
  · exact le_refl _

theorem bounceTopWall_vy_le (c : Coin) : |(bounceTopWall c).vy| ≤ |c.vy| := by
  unfold bounceTopWall
  split_ifs
  · show |c.vy * (-(7/10))| ≤ |c.vy|
    rw [abs_mul, show |(-(7/10) : ℚ)| = 7/10 by norm_num]
    nlinarith [abs_nonneg c.vy]
  · exact le_refl _

theorem bounceBottomWall_vy_le (c : Coin) : |(bounceBottomWall c).vy| ≤ |c.vy| := by
  unfold bounceBottomWall
  split_ifs
  · show |c.vy * (-(7/10))| ≤ |c.vy|
    rw [abs_mul, show |(-(7/10) : ℚ)| = 7/10 by norm_num]
    nlinarith [abs_nonneg c.vy]
  · exact le_refl _

theorem wallBounce_vx_le (c : Coin) : |(wallBounce c).vx| ≤ |c.vx| := by
  unfold wallBounce
  calc |(bounceBottomWall (bounceTopWall (bounceRightWall (bounceLeftWall c)))).vx|
      = |(bounceRightWall (bounceLeftWall c)).vx| := by
        rw [bounceBottomWall_vx, bounceTopWall_vx]
    _ ≤ |(bounceLeftWall c).vx| := bounceRightWall_vx_le _
    _ ≤ |c.vx| := bounceLeftWall_vx_le _

theorem wallBounce_vy_le (c : Coin) : |(wallBounce c).vy| ≤ |c.vy| := by
  unfold wallBounce
  calc |(bounceBottomWall (bounceTopWall (bounceRightWall (bounceLeftWall c)))).vy|
      ≤ |(bounceTopWall (bounceRightWall (bounceLeftWall c))).vy| := bounceBottomWall_vy_le _
    _ ≤ |(bounceRightWall (bounceLeftWall c)).vy| := bounceTopWall_vy_le _
    _ = |c.vy| := by rw [bounceRightWall_vy, bounceLeftWall_vy]

@[simp] theorem integrate_vx (c : Coin) : (integrate c).vx = c.vx * friction := rfl

@[simp] theorem integrate_vy (c : Coin) : (integrate c).vy = c.vy * friction := rfl

@[simp] theorem integrate_r (c : Coin) : (integrate c).r = c.r := rfl

theorem coinUpdate_decay (c : Coin) :
    |(coinUpdate [] c).vx| ≤ friction * |c.vx| ∧ |(coinUpdate [] c).vy| ≤ friction * |c.vy| := by
  have hfr : (0 : ℚ) ≤ friction := by norm_num [friction]
  unfold coinUpdate
  split_ifs with h
  · constructor <;>
      · show |(0 : ℚ)| ≤ _
        rw [abs_zero]
        exact mul_nonneg hfr (abs_nonneg _)
  · rw [List.foldl_nil]
    constructor
    · calc |(wallBounce (integrate c)).vx| ≤ |(integrate c).vx| := wallBounce_vx_le _
        _ = friction * |c.vx| := by
          rw [integrate_vx, abs_mul, show |(friction : ℚ)| = friction by norm_num [friction],
            mul_comm]
    · calc |(wallBounce (integrate c)).vy| ≤ |(integrate c).vy| := wallBounce_vy_le _
        _ = friction * |c.vy| := by
          rw [integrate_vy, abs_mul, show |(friction : ℚ)| = friction by norm_num [friction],
            mul_comm]

theorem coinUpdate_iterate_decay (c : Coin) (n : ℕ) :
    |((coinUpdate [])^[n] c).vx| ≤ friction ^ n * |c.vx| ∧
    |((coinUpdate [])^[n] c).vy| ≤ friction ^ n * |c.vy| := by
  induction n with
  | zero => simp
  | succ n ih =>
    rw [Function.iterate_succ_apply']
    obtain ⟨h1, h2⟩ := coinUpdate_decay ((coinUpdate [])^[n] c)
    have hf : (0 : ℚ) ≤ friction := by norm_num [friction]
    constructor
    · calc |(coinUpdate [] ((coinUpdate [])^[n] c)).vx|
          ≤ friction * |((coinUpdate [])^[n] c).vx| := h1
        _ ≤ friction * (friction ^ n * |c.vx|) := by
          exact mul_le_mul_of_nonneg_left ih.1 hf
        _ = friction ^ (n + 1) * |c.vx| := by ring
    · calc |(coinUpdate [] ((coinUpdate [])^[n] c)).vy|
          ≤ friction * |((coinUpdate [])^[n] c).vy| := h2
        _ ≤ friction * (friction ^ n * |c.vy|) := by
          exact mul_le_mul_of_nonneg_left ih.2 hf
        _ = friction ^ (n + 1) * |c.vy| := by ring

theorem coinUpdate_rest_branch (obs : List Rect) (c : Coin)
    (h1 : |c.vx| < minSpeed) (h2 : |c.vy| < minSpeed) :
    coinUpdate obs c = { c with vx := 0, vy := 0, resting := true } := by
  unfold coinUpdate
  rw [if_pos]
  constructor <;> simpa using ‹_›

theorem coinUpdate_rest_fixed (obs : List Rect) (e : Coin) :
    coinUpdate obs { e with vx := 0, vy := 0, resting := true }
      = { e with vx := 0, vy := 0, resting := true } := by
  unfold coinUpdate
  rw [if_pos]
  constructor <;> · show qabs 0 < minSpeed; norm_num [qabs, minSpeed]

/-! ### Claim C3: boundary containment -/

/-- C3, counterexample to the claim as stated.  Two failure modes of
`Coin.update`:
(1) the rest branch (`|vx| < minSpeed and |vy| < minSpeed`) returns without
clamping, so a body placed outside the arena with zero velocity stays outside
(`x = 0 < margin + r`);
(2) the obstacle push-out resolves along minimum penetration and may push the
center outside the arena: for an obstacle rectangle straddling the right
boundary, a coin at `(830, 200)` with `vx = 10` ends at `x = 914`, beyond
`width - margin - r = 836`. -/
theorem C3_boundary_counterexample :
    ((coinUpdate [] ⟨0, 0, 0, 0, 14, none, true⟩).x = 0 ∧ (0 : ℚ) < margin + 14) ∧
    ((coinUpdate [⟨770, 40, 130, 300⟩] ⟨830, 200, 10, 0, 14, none, false⟩).x = 914 ∧
      width - margin - 14 < 914) := by
  constructor
  · exact ⟨by decide, by norm_num [margin]⟩
  · exact ⟨by decide, by norm_num [width, margin, gridCols, cell]⟩

/-- C3 (amended): for a body of the game's radius that actually moves this
frame (its velocity is not below the rest threshold) and with no obstacles,
a single `Coin.update` call leaves the position inside
`[margin + r, width - margin - r] × [margin + r, height - margin - r]`
regardless of the incoming velocity magnitude (the vertical clamp of the
source is even tighter: `map_bottom - r ≤ height - margin - r`). -/
theorem C3_boundary_containment (c : Coin) (hr : c.r = 14)
    (hmove : ¬(|c.vx| < minSpeed ∧ |c.vy| < minSpeed)) :
    margin + c.r ≤ (coinUpdate [] c).x ∧ (coinUpdate [] c).x ≤ width - margin - c.r ∧
    margin + c.r ≤ (coinUpdate [] c).y ∧ (coinUpdate [] c).y ≤ height - margin - c.r := by
  have hcu : coinUpdate [] c = wallBounce (integrate c) := by
    unfold coinUpdate
    rw [if_neg (by simpa using hmove), List.foldl_nil]
  obtain ⟨h1, h2, h3, h4⟩ := wallBounce_bounds (integrate c) (by rw [integrate_r, hr])
  rw [integrate_r] at h1 h2 h3 h4
  refine ⟨by rwa [hcu], by rwa [hcu], by rwa [hcu], ?_⟩
  rw [hcu]
  have : mapBottom - c.r ≤ height - margin - c.r := by
    norm_num [mapBottom, height, margin, gridRows, gridCols, cell]
  linarith

/-- Witness for `C3_boundary_containment` at a concrete moving coin. -/
theorem C3_boundary_containment_witness :
    margin + (⟨100, 100, 5, 0, 14, none, false⟩ : Coin).r
        ≤ (coinUpdate [] ⟨100, 100, 5, 0, 14, none, false⟩).x ∧
      (coinUpdate [] ⟨100, 100, 5, 0, 14, none, false⟩).x
        ≤ width - margin - (⟨100, 100, 5, 0, 14, none, false⟩ : Coin).r ∧
      margin + (⟨100, 100, 5, 0, 14, none, false⟩ : Coin).r
        ≤ (coinUpdate [] ⟨100, 100, 5, 0, 14, none, false⟩).y ∧
      (coinUpdate [] ⟨100, 100, 5, 0, 14, none, false⟩).y
        ≤ height - margin - (⟨100, 100, 5, 0, 14, none, false⟩ : Coin).r :=
  C3_boundary_containment ⟨100, 100, 5, 0, 14, none, false⟩ rfl
    (by norm_num [minSpeed])

/-! ### Claim C8: rest branch and eventual rest -/

/-- C8: (1) `Step` with both velocity components below `minSpeed` zeroes the
velocity, sets `resting`, and leaves the position unchanged (the equation with
the record update states exactly this); (2) from any nonzero initial velocity,
with no obstacles, some iterate of `Step` has both components below
`minSpeed`, the next call enters the rest state, and from then on `Step` is
the identity (idempotent rest). -/
theorem C8_rest_and_eventual_rest :
    (∀ (obs : List Rect) (c : Coin), |c.vx| < minSpeed → |c.vy| < minSpeed →
      coinUpdate obs c = { c with vx := 0, vy := 0, resting := true }) ∧
    (∀ c : Coin, ¬(c.vx = 0 ∧ c.vy = 0) → ∃ N : ℕ,
      |((coinUpdate [])^[N] c).vx| < minSpeed ∧
      |((coinUpdate [])^[N] c).vy| < minSpeed ∧
      ((coinUpdate [])^[N + 1] c).resting = true ∧
      ((coinUpdate [])^[N + 1] c).vx = 0 ∧
      ((coinUpdate [])^[N + 1] c).vy = 0 ∧
      ((coinUpdate [])^[N + 1] c).x = ((coinUpdate [])^[N] c).x ∧
      ((coinUpdate [])^[N + 1] c).y = ((coinUpdate [])^[N] c).y ∧
      ∀ n, N + 1 ≤ n → (coinUpdate [])^[n] c = (coinUpdate [])^[N + 1] c) := by
  constructor
  · exact coinUpdate_rest_branch
  · intro c _
    have hM : (0 : ℚ) < |c.vx| + |c.vy| + 1 := by positivity
    have hms : (0 : ℚ) < minSpeed := by norm_num [minSpeed]
    obtain ⟨n, hn⟩ := exists_pow_lt_of_lt_one
      (div_pos hms hM) (show friction < 1 by norm_num [friction])
    have hfn : (0 : ℚ) ≤ friction ^ n := pow_nonneg (by norm_num [friction]) n
    obtain ⟨hdx, hdy⟩ := coinUpdate_iterate_decay c n
    have hvxlt : |((coinUpdate [])^[n] c).vx| < minSpeed := by
      have h1 : friction ^ n * |c.vx| ≤ friction ^ n * (|c.vx| + |c.vy| + 1) := by
        nlinarith [abs_nonneg c.vx, abs_nonneg c.vy]
      have h2 : friction ^ n * (|c.vx| + |c.vy| + 1) <
          minSpeed / (|c.vx| + |c.vy| + 1) * (|c.vx| + |c.vy| + 1) :=
        mul_lt_mul_of_pos_right hn hM
      rw [div_mul_cancel₀ _ (ne_of_gt hM)] at h2
      linarith
    have hvylt : |((coinUpdate [])^[n] c).vy| < minSpeed := by
      have h1 : friction ^ n * |c.vy| ≤ friction ^ n * (|c.vx| + |c.vy| + 1) := by
        nlinarith [abs_nonneg c.vx, abs_nonneg c.vy]
      have h2 : friction ^ n * (|c.vx| + |c.vy| + 1) <
          minSpeed / (|c.vx| + |c.vy| + 1) * (|c.vx| + |c.vy| + 1) :=
        mul_lt_mul_of_pos_right hn hM
      rw [div_mul_cancel₀ _ (ne_of_gt hM)] at h2
      linarith
    have hstep : (coinUpdate [])^[n + 1] c
        = { ((coinUpdate [])^[n] c) with vx := 0, vy := 0, resting := true } := by
      rw [Function.iterate_succ_apply']
      exact coinUpdate_rest_branch [] _ hvxlt hvylt
    have hfix : coinUpdate [] ((coinUpdate [])^[n + 1] c) = (coinUpdate [])^[n + 1] c := by
      rw [hstep]
      exact coinUpdate_rest_fixed [] _
    refine ⟨n, hvxlt, hvylt, by rw [hstep], by rw [hstep], by rw [hstep],
      by rw [hstep], by rw [hstep], ?_⟩
    intro m hm
    obtain ⟨k, rfl⟩ := Nat.exists_eq_add_of_le hm
    rw [add_comm, Function.iterate_add_apply]
    exact Function.iterate_fixed hfix k

/-- Witness for `C8_rest_and_eventual_rest`: both parts applied at concrete
inputs. -/
theorem C8_rest_and_eventual_rest_witness :
    (coinUpdate [] ⟨200, 200, (1/10 : ℚ), (1/10 : ℚ), 14, none, false⟩
      = { (⟨200, 200, (1/10 : ℚ), (1/10 : ℚ), 14, none, false⟩ : Coin) with
            vx := 0, vy := 0, resting := true }) ∧
    (∃ N : ℕ,
      |((coinUpdate [])^[N] (⟨100, 100, 5, 0, 14, none, false⟩ : Coin)).vx| < minSpeed ∧
      |((coinUpdate [])^[N] (⟨100, 100, 5, 0, 14, none, false⟩ : Coin)).vy| < minSpeed ∧
      ((coinUpdate [])^[N + 1] (⟨100, 100, 5, 0, 14, none, false⟩ : Coin)).resting = true ∧
      ((coinUpdate [])^[N + 1] (⟨100, 100, 5, 0, 14, none, false⟩ : Coin)).vx = 0 ∧
      ((coinUpdate [])^[N + 1] (⟨100, 100, 5, 0, 14, none, false⟩ : Coin)).vy = 0 ∧
      ((coinUpdate [])^[N + 1] (⟨100, 100, 5, 0, 14, none, false⟩ : Coin)).x
        = ((coinUpdate [])^[N] (⟨100, 100, 5, 0, 14, none, false⟩ : Coin)).x ∧
      ((coinUpdate [])^[N + 1] (⟨100, 100, 5, 0, 14, none, false⟩ : Coin)).y
        = ((coinUpdate [])^[N] (⟨100, 100, 5, 0, 14, none, false⟩ : Coin)).y ∧
      ∀ n, N + 1 ≤ n →
        (coinUpdate [])^[n] (⟨100, 100, 5, 0, 14, none, false⟩ : Coin)
          = (coinUpdate [])^[N + 1] (⟨100, 100, 5, 0, 14, none, false⟩ : Coin)) :=
  ⟨C8_rest_and_eventual_rest.1 [] _
      (by rw [show |(1/10 : ℚ)| = 1/10 from abs_of_nonneg (by norm_num)]; norm_num [minSpeed])
      (by rw [show |(1/10 : ℚ)| = 1/10 from abs_of_nonneg (by norm_num)]; norm_num [minSpeed]),
   C8_rest_and_eventual_rest.2 _ (by norm_num)⟩

/-! ### Collision resolver (src/game.py lines 439-461)

`resolve_coin_collision(a, b)` uses the actual distance `math.hypot(dx, dy)`.
To keep the embedding computable over ℚ the distance is an explicit argument
`dist`; every theorem about `resolveWith` constrains it by
`0 ≤ dist ∧ dist * dist = dx * dx + dy * dy`, which characterises
`math.hypot` exactly. -/

/-- `Game.resolve_coin_collision` with the hypot value passed in as `dist`.
Returns the mutated pair `(a, b)`. -/
def resolveWith (dist : ℚ) (a b : Coin) : Coin × Coin :=
  let dx := b.x - a.x
  let dy := b.y - a.y
  let minDist := a.r + b.r
  if dist = 0 ∨ dist ≥ minDist then (a, b)
  else
    let nx := dx / dist
    let ny := dy / dist
    let overlap := minDist - dist
    let a1 := { a with x := a.x - nx * overlap * (1/2), y := a.y - ny * overlap * (1/2) }
    let b1 := { b with x := b.x + nx * overlap * (1/2), y := b.y + ny * overlap * (1/2) }
    let rvx := b.vx - a.vx
    let rvy := b.vy - a.vy
    let velAlongNormal := rvx * nx + rvy * ny
    if velAlongNormal > 0 then (a1, b1)
    else
      let j := -(1 + restitution) * velAlongNormal / 2
      ({ a1 with vx := a1.vx - j * nx, vy := a1.vy - j * ny },
       { b1 with vx := b1.vx + j * nx, vy := b1.vy + j * ny })

/-! ### Claim C10: exact momentum and midpoint conservation -/

/-- C10: for every pair of bodies and the true inter-center distance, the
resolver leaves `a.vx + b.vx`, `a.vy + b.vy` and the midpoint of the two
centers exactly unchanged, in the no-op branches as well, because position
correction and impulse are applied equally and oppositely. -/
theorem C10_momentum_midpoint_conservation (a b : Coin) (dist : ℚ)
    (hd : 0 ≤ dist)
    (hd2 : dist * dist = (b.x - a.x) * (b.x - a.x) + (b.y - a.y) * (b.y - a.y)) :
    (resolveWith dist a b).1.vx + (resolveWith dist a b).2.vx = a.vx + b.vx ∧
    (resolveWith dist a b).1.vy + (resolveWith dist a b).2.vy = a.vy + b.vy ∧
    ((resolveWith dist a b).1.x + (resolveWith dist a b).2.x) / 2 = (a.x + b.x) / 2 ∧
    ((resolveWith dist a b).1.y + (resolveWith dist a b).2.y) / 2 = (a.y + b.y) / 2 := by
  unfold resolveWith
  dsimp only
  split_ifs <;> refine ⟨by ring, by ring, by ring, by ring⟩

/-- Witness for `C10_momentum_midpoint_conservation` on a 3-4-5 overlapping
configuration (distance 5 < r sum 28). -/
theorem C10_momentum_midpoint_conservation_witness :
    (resolveWith 5 ⟨0, 0, 1, 0, 14, none, false⟩ ⟨3, 4, -1, 0, 14, none, false⟩).1.vx +
        (resolveWith 5 ⟨0, 0, 1, 0, 14, none, false⟩ ⟨3, 4, -1, 0, 14, none, false⟩).2.vx
        = 1 + -1 ∧
      (resolveWith 5 ⟨0, 0, 1, 0, 14, none, false⟩ ⟨3, 4, -1, 0, 14, none, false⟩).1.vy +
        (resolveWith 5 ⟨0, 0, 1, 0, 14, none, false⟩ ⟨3, 4, -1, 0, 14, none, false⟩).2.vy
        = 0 + 0 ∧
      ((resolveWith 5 ⟨0, 0, 1, 0, 14, none, false⟩ ⟨3, 4, -1, 0, 14, none, false⟩).1.x +
        (resolveWith 5 ⟨0, 0, 1, 0, 14, none, false⟩ ⟨3, 4, -1, 0, 14, none, false⟩).2.x) / 2
        = (0 + 3) / 2 ∧
      ((resolveWith 5 ⟨0, 0, 1, 0, 14, none, false⟩ ⟨3, 4, -1, 0, 14, none, false⟩).1.y +
        (resolveWith 5 ⟨0, 0, 1, 0, 14, none, false⟩ ⟨3, 4, -1, 0, 14, none, false⟩).2.y) / 2
        = (0 + 4) / 2 :=
  C10_momentum_midpoint_conservation ⟨0, 0, 1, 0, 14, none, false⟩
    ⟨3, 4, -1, 0, 14, none, false⟩ 5 (by norm_num) (by norm_num)

/-! ### Claim C9: collision symmetry for a head-on hit -/

/-- C9: two bodies of equal radius, overlapping but not coincident, with
opposite velocities of magnitude `sp ≥ 0` directed along the line connecting
them (`a` towards `b`, `b` towards `a`): the resolver swaps the two
velocities and scales them by the restitution factor 0.7, and the total
momentum (a zero vector in this configuration) is exactly preserved. -/
theorem C9_collision_symmetry (a b : Coin) (dist sp : ℚ)
    (hr : a.r = b.r)
    (hd0 : 0 < dist) (hdlt : dist < a.r + b.r)
    (hd2 : dist * dist = (b.x - a.x) * (b.x - a.x) + (b.y - a.y) * (b.y - a.y))
    (hsp : 0 ≤ sp)
    (havx : a.vx = sp * (b.x - a.x) / dist) (havy : a.vy = sp * (b.y - a.y) / dist)
    (hbvx : b.vx = -(sp * (b.x - a.x) / dist)) (hbvy : b.vy = -(sp * (b.y - a.y) / dist)) :
    (resolveWith dist a b).1.vx = restitution * b.vx ∧
    (resolveWith dist a b).1.vy = restitution * b.vy ∧
    (resolveWith dist a b).2.vx = restitution * a.vx ∧
    (resolveWith dist a b).2.vy = restitution * a.vy ∧
    (resolveWith dist a b).1.vx + (resolveWith dist a b).2.vx = a.vx + b.vx ∧
    (resolveWith dist a b).1.vy + (resolveWith dist a b).2.vy = a.vy + b.vy := by
  have hdist : dist ≠ 0 := ne_of_gt hd0
  have hnot : ¬(dist = 0 ∨ dist ≥ a.r + b.r) := by
    push_neg
    exact ⟨hdist, hdlt⟩
  have hval : (b.vx - a.vx) * ((b.x - a.x) / dist) + (b.vy - a.vy) * ((b.y - a.y) / dist)
      = -(2 * sp) := by
    rw [havx, havy, hbvx, hbvy]
    field_simp
    linear_combination (2 * sp * dist) * hd2
  have hnpos : ¬((b.vx - a.vx) * ((b.x - a.x) / dist) + (b.vy - a.vy) * ((b.y - a.y) / dist) > 0) := by
    rw [hval]
    nlinarith
  unfold resolveWith
  dsimp only
  rw [if_neg hnot, if_neg hnpos]
  refine ⟨?_, ?_, ?_, ?_, ?_, ?_⟩
  · show a.vx - -(1 + restitution) *
        ((b.vx - a.vx) * ((b.x - a.x) / dist) + (b.vy - a.vy) * ((b.y - a.y) / dist)) / 2 *
        ((b.x - a.x) / dist) = restitution * b.vx
    rw [hval, havx, hbvx]
    field_simp
    ring
  · show a.vy - -(1 + restitution) *
        ((b.vx - a.vx) * ((b.x - a.x) / dist) + (b.vy - a.vy) * ((b.y - a.y) / dist)) / 2 *
        ((b.y - a.y) / dist) = restitution * b.vy
    rw [hval, havy, hbvy]
    field_simp
    ring
  · show b.vx + -(1 + restitution) *
        ((b.vx - a.vx) * ((b.x - a.x) / dist) + (b.vy - a.vy) * ((b.y - a.y) / dist)) / 2 *
        ((b.x - a.x) / dist) = restitution * a.vx
    rw [hval, havx, hbvx]
    field_simp
    ring
  · show b.vy + -(1 + restitution) *
        ((b.vx - a.vx) * ((b.x - a.x) / dist) + (b.vy - a.vy) * ((b.y - a.y) / dist)) / 2 *
        ((b.y - a.y) / dist) = restitution * a.vy
    rw [hval, havy, hbvy]
    field_simp
    ring
  · show a.vx - _ + (b.vx + _) = a.vx + b.vx
    ring
  · show a.vy - _ + (b.vy + _) = a.vy + b.vy
    ring

/-- Witness for `C9_collision_symmetry`: bodies at `(0,0)` and `(20,0)`
(distance 20, overlapping since `r = 14` each), head-on speeds `5`. -/
theorem C9_collision_symmetry_witness :
    (resolveWith 20 ⟨0, 0, 5, 0, 14, none, false⟩ ⟨20, 0, -5, 0, 14, none, false⟩).1.vx
        = restitution * (-5) ∧
      (resolveWith 20 ⟨0, 0, 5, 0, 14, none, false⟩ ⟨20, 0, -5, 0, 14, none, false⟩).1.vy
        = restitution * (-0) ∧
      (resolveWith 20 ⟨0, 0, 5, 0, 14, none, false⟩ ⟨20, 0, -5, 0, 14, none, false⟩).2.vx
        = restitution * 5 ∧
      (resolveWith 20 ⟨0, 0, 5, 0, 14, none, false⟩ ⟨20, 0, -5, 0, 14, none, false⟩).2.vy
        = restitution * 0 ∧
      (resolveWith 20 ⟨0, 0, 5, 0, 14, none, false⟩ ⟨20, 0, -5, 0, 14, none, false⟩).1.vx +
        (resolveWith 20 ⟨0, 0, 5, 0, 14, none, false⟩ ⟨20, 0, -5, 0, 14, none, false⟩).2.vx
        = 5 + -5 ∧
      (resolveWith 20 ⟨0, 0, 5, 0, 14, none, false⟩ ⟨20, 0, -5, 0, 14, none, false⟩).1.vy +
        (resolveWith 20 ⟨0, 0, 5, 0, 14, none, false⟩ ⟨20, 0, -5, 0, 14, none, false⟩).2.vy
        = 0 + 0 := by
  have h := C9_collision_symmetry ⟨0, 0, 5, 0, 14, none, false⟩ ⟨20, 0, -5, 0, 14, none, false⟩
    20 5 rfl (by norm_num) (by norm_num) (by norm_num) (by norm_num)
    (by norm_num) (by norm_num) (by norm_num) (by norm_num)
  simpa using h

/-! ### Game state (src/game.py class Game)

Fields that only matter for rendering and input plumbing (screen, fonts,
images, message strings, drag start position) are omitted; `message` is a
pure output sink and never read back by the logic. -/

/-- The treasure token (src/game.py lines 59-67).  `tid` models Python
object identity; every list the game builds has pairwise distinct ids. -/
structure Treasure where
  tid : ℕ
  row : ℚ
  col : ℚ
  r : ℚ
  carriedBy : Option (Fin 2)
  deriving DecidableEq

/-- `Treasure.pos()`: the grid-cell pixel center. -/
def treasurePos (t : Treasure) : ℚ × ℚ := gridToPx t.row t.col

/-- One of the three item tokens (image field omitted). -/
structure Item where
  row : ℚ
  col : ℚ
  deriving DecidableEq

/-- `Item.pos()`. -/
def itemPos (it : Item) : ℚ × ℚ := gridToPx it.row it.col

/-- The three item kinds, in the order `check_item_pickup` processes them. -/
inductive ItemKind
  | extra
  | stop
  | redirect
  deriving DecidableEq

/-- The random data one frame can consume, passed in explicitly:
`collDist` is `math.hypot` of the inter-coin vector at collision time
(constrained in theorems), `redirectVx`/`redirectVy` model the
`random.uniform` draws of the whirlpool item, and the remaining fields model
`random.choice`/`random.shuffle` in `start_round` and the item spawner. -/
structure Oracle where
  collDist : ℚ
  redirectVx : ℚ
  redirectVy : ℚ
  roundCell : ℕ
  roundItemKind : Fin 3
  roundItemCell : ℕ
  switchItemKind : Fin 3
  switchItemCell : ℕ

/-- The mutable state of `Game`. -/
structure GameState where
  coins : Fin 2 → Coin
  matchWins : Fin 2 → ℕ
  turn : Fin 2
  extraTurn : Bool
  awaitingSwitch : Bool
  dragging : Bool
  treasures : List Treasure
  matchOver : Bool
  totalTurns : ℕ
  itemExtra : Option Item
  itemStop : Option Item
  itemRedirect : Option Item
  obstacles : List Rect

/-- `Game.other(p) = 1 - p` (src/game.py line 401). -/
def OTHER (p : Fin 2) : Fin 2 := if p = 0 then 1 else 0

/-- Write one coin (in-place mutation of `self.coins[i]`). -/
def GameState.setCoin (s : GameState) (i : Fin 2) (c : Coin) : GameState :=
  { s with coins := Function.update s.coins i c }

/-- `base_h = 3 * CELL` (src/game.py line 239). -/
def baseH : ℚ := 3 * cell

/-- `base_y = MARGIN + (GRID_ROWS * CELL - base_h) // 2`; the division is
exact (180 / 2) so `//` and `/` agree. -/
def baseY : ℚ := margin + (gridRows * cell - baseH) / 2

/-- The two base rectangles (src/game.py lines 241-243). -/
def baseRect : Fin 2 → Rect := fun i =>
  if i = 0 then ⟨margin, baseY, cell, baseH⟩
  else ⟨width - margin - cell, baseY, cell, baseH⟩

/-- `map_mid_y = (GRID_ROWS * CELL + MARGIN * 2) // 2` (exact division). -/
def mapMidY : ℚ := (gridRows * cell + margin * 2) / 2

/-- `Game._cell_center_blocked(r, c)` (src/game.py line 303). -/
def cellCenterBlocked (obstacles : List Rect) (r c : ℚ) : Bool :=
  obstacles.any fun rect => rect.collidepoint (gridToPx r c).1 (gridToPx r c).2

/-- The treasure candidate cells of `start_round`: rows 1-3 × cols 3-5,
centers not blocked (src/game.py lines 379-384). -/
def candidateCells (obstacles : List Rect) : List (ℚ × ℚ) :=
  (([1, 2, 3] : List ℚ).product ([3, 4, 5] : List ℚ)).filter
    fun rc => !cellCenterBlocked obstacles rc.1 rc.2

/-- The `green_area` of `_try_spawn_item`: rows 0-4 × cols 2-6, centers not
blocked (src/game.py lines 335-336). -/
def greenCells (obstacles : List Rect) : List (ℚ × ℚ) :=
  (([0, 1, 2, 3, 4] : List ℚ).product ([2, 3, 4, 5, 6] : List ℚ)).filter
    fun rc => !cellCenterBlocked obstacles rc.1 rc.2

/-- Read one of the three item slots. -/
def getSlot : ItemKind → GameState → Option Item
  | .extra, s => s.itemExtra
  | .stop, s => s.itemStop
  | .redirect, s => s.itemRedirect

/-- Write one of the three item slots. -/
def setSlot : ItemKind → Option Item → GameState → GameState
  | .extra, v, s => { s with itemExtra := v }
  | .stop, v, s => { s with itemStop := v }
  | .redirect, v, s => { s with itemRedirect := v }

/-- The positions of the currently live items
(`existing_items` of `_try_spawn_item`). -/
def existingItemsPos (s : GameState) : List (ℚ × ℚ) :=
  ([s.itemExtra, s.itemStop, s.itemRedirect].filterMap id).map itemPos

/-- The cells `_try_spawn_item` accepts: green, not within `t.r + 16` of a
treasure, not within distance `< 10` of a live item
(src/game.py lines 342-356). -/
def validSpawnCells (s : GameState) : List (ℚ × ℚ) :=
  (greenCells s.obstacles).filter fun rc =>
    (!s.treasures.any fun t =>
      hypotLeB ((gridToPx rc.1 rc.2).1 - (treasurePos t).1)
        ((gridToPx rc.1 rc.2).2 - (treasurePos t).2) (t.r + 16)) &&
    (!(existingItemsPos s).any fun q =>
      hypotLtB ((gridToPx rc.1 rc.2).1 - q.1) ((gridToPx rc.1 rc.2).2 - q.2) 10)

/-- `Game._try_spawn_item` (src/game.py lines 334-360).  The source shuffles
the green area and takes the first valid cell; the shuffle is modelled by the
oracle index `cellIdx` choosing among the valid cells (every valid cell is
first under some shuffle, and the result is always a valid cell or no
spawn). -/
def trySpawnItem (k : ItemKind) (cellIdx : ℕ) (s : GameState) : GameState :=
  let valid := validSpawnCells s
  if valid.isEmpty then s
  else
    let rc := valid.getD (cellIdx % valid.length) (0, 0)
    setSlot k (some ⟨rc.1, rc.2⟩) s

/-- `spawn_item_Extraturn` and friends: no-op when the slot is occupied
(src/game.py lines 322-332). -/
def spawnItem (k : ItemKind) (cellIdx : ℕ) (s : GameState) : GameState :=
  if (getSlot k s).isSome then s else trySpawnItem k cellIdx s

/-- `Game.spawn_random_item_one_of_three` (src/game.py lines 310-320), the
kind chosen by the oracle. -/
def spawnOneOfThree (kind : Fin 3) (cellIdx : ℕ) (s : GameState) : GameState :=
  if kind = 0 then spawnItem .extra cellIdx s
  else if kind = 1 then spawnItem .stop cellIdx s
  else spawnItem .redirect cellIdx s

/-- `Game.start_round(starting_player)` (src/game.py lines 363-395): turn and
flags reset, coins repositioned and cleared, one treasure in a random
unblocked candidate cell (none if all are blocked), item slots cleared and
one random item spawned. -/
def startRound (p : Fin 2) (o : Oracle) (s : GameState) : GameState :=
  let s1 := { s with turn := p, awaitingSwitch := false, extraTurn := false, totalTurns := 0 }
  let s2 := { s1 with coins := fun i =>
    { s1.coins i with
        x := if i = 0 then margin + 20 else width - margin - 20,
        y := mapMidY, vx := 0, vy := 0, resting := true, carrying := none } }
  let cands := candidateCells s2.obstacles
  let s3 := { s2 with treasures :=
    if cands.isEmpty then []
    else [{ tid := 0, row := (cands.getD (o.roundCell % cands.length) (1, 3)).1,
            col := (cands.getD (o.roundCell % cands.length) (1, 3)).2, r := 8,
            carriedBy := none }] }
  let s4 := { s3 with itemExtra := none, itemStop := none, itemRedirect := none }
  spawnOneOfThree o.roundItemKind o.roundItemCell s4

/-- Step 1 of `update_logic`: `for c in self.coins: c.update(self.obstacles)`
(src/game.py lines 473-474). -/
def moveCoins (s : GameState) : GameState :=
  { s with coins := fun i => coinUpdate s.obstacles (s.coins i) }

/-- The edge-crossing test of `check_item_pickup` for body `p`
(src/game.py lines 567-575): strictly outside the pickup radius last frame,
within it now. -/
def crossed (s : GameState) (lastPos : Fin 2 → ℚ × ℚ) (ipos : ℚ × ℚ) (p : Fin 2) : Bool :=
  !hypotLeB ((lastPos p).1 - ipos.1) ((lastPos p).2 - ipos.2) ((s.coins p).r + 12) &&
  hypotLeB ((s.coins p).x - ipos.1) ((s.coins p).y - ipos.2) ((s.coins p).r + 12)

/-- The per-kind effects of `check_item_pickup` (src/game.py lines 589-619). -/
def applyItemEffect (k : ItemKind) (player : Fin 2) (o : Oracle) (s : GameState) : GameState :=
  match k with
  | .extra => if player = s.turn then { s with extraTurn := true } else s
  | .stop => s.setCoin player { s.coins player with vx := 0, vy := 0, resting := true }
  | .redirect =>
      let s1 := s.setCoin player
        { s.coins player with
            vx := o.redirectVx * (if player = 0 then 1 else -1),
            vy := o.redirectVy, resting := false }
      { s1 with awaitingSwitch := true }

/-- One kind's pass of `check_item_pickup` (src/game.py lines 557-619):
if the slot is live and some body crossed into its radius this frame, the
first such body (`touched[0]`, smallest index) consumes it: the slot is
cleared and the effect applied. -/
def itemStep (k : ItemKind) (lastPos : Fin 2 → ℚ × ℚ) (o : Oracle) (s : GameState) : GameState :=
  match getSlot k s with
  | none => s
  | some it =>
      if crossed s lastPos (itemPos it) 0 || crossed s lastPos (itemPos it) 1 then
        let player : Fin 2 := if crossed s lastPos (itemPos it) 0 then 0 else 1
        applyItemEffect k player o (setSlot k none s)
      else s

/-- `Game.check_item_pickup(last_positions)` (src/game.py lines 550-619):
the three kinds processed in order extra, stop, redirect. -/
def checkItemPickup (lastPos : Fin 2 → ℚ × ℚ) (o : Oracle) (s : GameState) : GameState :=
  itemStep .redirect lastPos o (itemStep .stop lastPos o (itemStep .extra lastPos o s))

/-- Step 3 of `update_logic`:
`self.resolve_coin_collision(self.coins[0], self.coins[1])`. -/
def collisionStep (o : Oracle) (s : GameState) : GameState :=
  { s with coins := fun i =>
      if i = 0 then (resolveWith o.collDist (s.coins 0) (s.coins 1)).1
      else (resolveWith o.collDist (s.coins 0) (s.coins 1)).2 }

/-- The inner-loop condition of the treasure pickup: a free treasure within
`c.r + 12` of the body (src/game.py lines 488-490). -/
def pickupCondB (c : Coin) (t : Treasure) : Bool :=
  t.carriedBy.isNone &&
  hypotLeB (c.x - (treasurePos t).1) (c.y - (treasurePos t).2) (c.r + 12)

/-- The body-`i` iteration of step 4 of `update_logic`
(src/game.py lines 484-503): an empty-handed body takes the first free
in-range treasure, sets both references, and earns the extra-turn flag only
when it is the current turn's body. -/
def pickup1 (i : Fin 2) (s : GameState) : GameState :=
  let c := s.coins i
  if c.carrying.isNone then
    match s.treasures.find? (pickupCondB c) with
    | none => s
    | some t =>
        let s1 := s.setCoin i { c with carrying := some t.tid }
        let s2 := { s1 with treasures := s1.treasures.map fun u =>
          if u.tid = t.tid then { u with carriedBy := some i } else u }
        if i = s2.turn then { s2 with extraTurn := true } else s2
  else s

/-- Step 4 of `update_logic`: the treasure-pickup loop over both bodies. -/
def treasurePickupStep (s : GameState) : GameState := pickup1 1 (pickup1 0 s)

/-- Step 5 of `update_logic`, the steal rule (src/game.py lines 505-513). -/
def stealStep (s : GameState) : GameState :=
  let atk := s.coins s.turn
  let dfd := s.coins (OTHER s.turn)
  if hypotLeB (atk.x - dfd.x) (atk.y - dfd.y) stealDistance then
    if atk.carrying.isNone then
      match dfd.carrying with
      | some tid =>
          let s1 := s.setCoin s.turn { atk with carrying := some tid }
          let s2 := s1.setCoin (OTHER s.turn) { dfd with carrying := none }
          let s3 := { s2 with treasures := s2.treasures.map (fun (u : Treasure) =>
            if u.tid = tid then { u with carriedBy := some s.turn } else u) }
          { s3 with extraTurn := true }
      | none => s
    else s
  else s

/-- The scoring guard of step 6 (src/game.py line 517). -/
def scoreFires (s : GameState) (i : Fin 2) : Bool :=
  (s.coins i).carrying.isSome &&
  (baseRect i).collidepoint (s.coins i).x (s.coins i).y

/-- The scoring body of step 6 for body `i` (src/game.py lines 518-529):
win counter increments, the carried treasure object is removed from the
active list, the carrying reference cleared, then match end or a new round
with the other side opening; `update_logic` returns immediately after. -/
def scoreFor (i : Fin 2) (o : Oracle) (s : GameState) : GameState :=
  let c := s.coins i
  let s1 := { s with matchWins := Function.update s.matchWins i (s.matchWins i + 1) }
  let s2 := match c.carrying with
    | some tid => { s1 with treasures := s1.treasures.eraseP fun u => u.tid == tid }
    | none => s1
  let s3 := s2.setCoin i { s2.coins i with carrying := none }
  if roundsToWin ≤ s3.matchWins i then
    { s3 with matchOver := true, awaitingSwitch := false }
  else startRound (OTHER i) o s3

/-- `Game.any_moving` (src/game.py line 398):
`abs(vx) > 0.0 or abs(vy) > 0.0` for either coin. -/
def anyMoving (s : GameState) : Bool :=
  (decide (0 < qabs (s.coins 0).vx) || decide (0 < qabs (s.coins 0).vy)) ||
  (decide (0 < qabs (s.coins 1).vx) || decide (0 < qabs (s.coins 1).vy))

/-- Step 7 of `update_logic`, the turn switch (src/game.py lines 531-545):
when nothing moves, a shot is pending resolution, and no drag is in progress,
the extra-turn flag keeps the turn (and is cleared), otherwise the turn
passes to the other side; the pending flag is cleared, the turn counter
advances, and late in the match an item may spawn. -/
def turnSwitchStep (o : Oracle) (s : GameState) : GameState :=
  if !anyMoving s && s.awaitingSwitch && !s.dragging then
    let s1 := if s.extraTurn then { s with extraTurn := false }
              else { s with turn := OTHER s.turn }
    let s2 := { s1 with awaitingSwitch := false, totalTurns := s1.totalTurns + 1 }
    if 6 ≤ s2.totalTurns ∧ s2.totalTurns % 2 = 0 then
      spawnOneOfThree o.switchItemKind o.switchItemCell s2
    else s2
  else s

/-- `Game.update_logic` (src/game.py lines 465-545): early return when the
match is over; otherwise record last positions, move, item pickup, coin
collision, treasure pickup, steal, then scoring (which returns immediately,
preempting the turn switch) or the turn switch. -/
def updateLogic (o : Oracle) (s : GameState) : GameState :=
  if s.matchOver then s
  else
    let lastPos : Fin 2 → ℚ × ℚ := fun i => ((s.coins i).x, (s.coins i).y)
    let s5 := stealStep (treasurePickupStep (collisionStep o (checkItemPickup lastPos o
      (moveCoins s))))
    if scoreFires s5 0 then scoreFor 0 o s5
    else if scoreFires s5 1 then scoreFor 1 o s5
    else turnSwitchStep o s5

/-- `Game.__init__` (src/game.py lines 200-272), restricted to the logic
state: fresh coins, zero counters, then `start_round(0)`.  The obstacle
layout comes from `load_random_map` and is passed in. -/
def initState (obstacles : List Rect) (o : Oracle) : GameState :=
  startRound 0 o
    { coins := fun i =>
        if i = 0 then ⟨margin + 20, mapMidY, 0, 0, 14, none, true⟩
        else ⟨width - margin - 20, mapMidY, 0, 0, 14, none, true⟩,
      matchWins := fun _ => 0, turn := 0, extraTurn := false, awaitingSwitch := false,
      dragging := false, treasures := [], matchOver := false, totalTurns := 0,
      itemExtra := none, itemStop := none, itemRedirect := none, obstacles := obstacles }

/-! ### Infrastructure lemmas -/

theorem OTHER_ne (p : Fin 2) : OTHER p ≠ p := by
  fin_cases p <;> decide

theorem fin2_eq_or (j p : Fin 2) : j = p ∨ j = OTHER p := by
  fin_cases j <;> fin_cases p <;> decide

@[simp] theorem setCoin_coins_same (s : GameState) (i : Fin 2) (c : Coin) :
    (s.setCoin i c).coins i = c := by
  simp [GameState.setCoin]

theorem setCoin_coins_ne (s : GameState) (i j : Fin 2) (c : Coin) (h : j ≠ i) :
    (s.setCoin i c).coins j = s.coins j := by
  simp [GameState.setCoin, Function.update_noteq h]

@[simp] theorem setCoin_turn (s : GameState) (i : Fin 2) (c : Coin) :
    (s.setCoin i c).turn = s.turn := rfl

@[simp] theorem setCoin_extraTurn (s : GameState) (i : Fin 2) (c : Coin) :
    (s.setCoin i c).extraTurn = s.extraTurn := rfl

@[simp] theorem setCoin_awaitingSwitch (s : GameState) (i : Fin 2) (c : Coin) :
    (s.setCoin i c).awaitingSwitch = s.awaitingSwitch := rfl

@[simp] theorem setCoin_treasures (s : GameState) (i : Fin 2) (c : Coin) :
    (s.setCoin i c).treasures = s.treasures := rfl

@[simp] theorem setCoin_matchWins (s : GameState) (i : Fin 2) (c : Coin) :
    (s.setCoin i c).matchWins = s.matchWins := rfl

@[simp] theorem setCoin_matchOver (s : GameState) (i : Fin 2) (c : Coin) :
    (s.setCoin i c).matchOver = s.matchOver := rfl

@[simp] theorem setCoin_itemExtra (s : GameState) (i : Fin 2) (c : Coin) :
    (s.setCoin i c).itemExtra = s.itemExtra := rfl

@[simp] theorem setCoin_itemStop (s : GameState) (i : Fin 2) (c : Coin) :
    (s.setCoin i c).itemStop = s.itemStop := rfl

@[simp] theorem setCoin_itemRedirect (s : GameState) (i : Fin 2) (c : Coin) :
    (s.setCoin i c).itemRedirect = s.itemRedirect := rfl

@[simp] theorem setSlot_coins (k : ItemKind) (v : Option Item) (s : GameState) :
    (setSlot k v s).coins = s.coins := by
  cases k <;> rfl

@[simp] theorem setSlot_treasures (k : ItemKind) (v : Option Item) (s : GameState) :
    (setSlot k v s).treasures = s.treasures := by
  cases k <;> rfl

@[simp] theorem setSlot_turn (k : ItemKind) (v : Option Item) (s : GameState) :
    (setSlot k v s).turn = s.turn := by
  cases k <;> rfl

@[simp] theorem setSlot_extraTurn (k : ItemKind) (v : Option Item) (s : GameState) :
    (setSlot k v s).extraTurn = s.extraTurn := by
  cases k <;> rfl

@[simp] theorem setSlot_awaitingSwitch (k : ItemKind) (v : Option Item) (s : GameState) :
    (setSlot k v s).awaitingSwitch = s.awaitingSwitch := by
  cases k <;> rfl

@[simp] theorem setSlot_matchWins (k : ItemKind) (v : Option Item) (s : GameState) :
    (setSlot k v s).matchWins = s.matchWins := by
  cases k <;> rfl

@[simp] theorem setSlot_matchOver (k : ItemKind) (v : Option Item) (s : GameState) :
    (setSlot k v s).matchOver = s.matchOver := by
  cases k <;> rfl

@[simp] theorem setSlot_totalTurns (k : ItemKind) (v : Option Item) (s : GameState) :
    (setSlot k v s).totalTurns = s.totalTurns := by
  cases k <;> rfl

@[simp] theorem getSlot_setSlot_same (k : ItemKind) (v : Option Item) (s : GameState) :
    getSlot k (setSlot k v s) = v := by
  cases k <;> rfl

theorem getSlot_setSlot_ne (k k' : ItemKind) (v : Option Item) (s : GameState)
    (h : k' ≠ k) : getSlot k' (setSlot k v s) = getSlot k' s := by
  cases k <;> cases k' <;> first | rfl | exact absurd rfl h

theorem trySpawnItem_coins (k : ItemKind) (idx : ℕ) (s : GameState) :
    (trySpawnItem k idx s).coins = s.coins := by
  unfold trySpawnItem
  dsimp only
  split_ifs <;> simp

theorem trySpawnItem_treasures (k : ItemKind) (idx : ℕ) (s : GameState) :
    (trySpawnItem k idx s).treasures = s.treasures := by
  unfold trySpawnItem
  dsimp only
  split_ifs <;> simp

theorem trySpawnItem_turn (k : ItemKind) (idx : ℕ) (s : GameState) :
    (trySpawnItem k idx s).turn = s.turn := by
  unfold trySpawnItem
  dsimp only
  split_ifs <;> simp

theorem trySpawnItem_extraTurn (k : ItemKind) (idx : ℕ) (s : GameState) :
    (trySpawnItem k idx s).extraTurn = s.extraTurn := by
  unfold trySpawnItem
  dsimp only
  split_ifs <;> simp

theorem trySpawnItem_awaitingSwitch (k : ItemKind) (idx : ℕ) (s : GameState) :
    (trySpawnItem k idx s).awaitingSwitch = s.awaitingSwitch := by
  unfold trySpawnItem
  dsimp only
  split_ifs <;> simp

theorem trySpawnItem_matchWins (k : ItemKind) (idx : ℕ) (s : GameState) :
    (trySpawnItem k idx s).matchWins = s.matchWins := by
  unfold trySpawnItem
  dsimp only
  split_ifs <;> simp

theorem trySpawnItem_matchOver (k : ItemKind) (idx : ℕ) (s : GameState) :
    (trySpawnItem k idx s).matchOver = s.matchOver := by
  unfold trySpawnItem
  dsimp only
  split_ifs <;> simp

theorem trySpawnItem_totalTurns (k : ItemKind) (idx : ℕ) (s : GameState) :
    (trySpawnItem k idx s).totalTurns = s.totalTurns := by
  unfold trySpawnItem
  dsimp only
  split_ifs <;> simp

theorem spawnItem_coins (k : ItemKind) (idx : ℕ) (s : GameState) :
    (spawnItem k idx s).coins = s.coins := by
  unfold spawnItem
  split_ifs <;> simp [trySpawnItem_coins]

theorem spawnItem_treasures (k : ItemKind) (idx : ℕ) (s : GameState) :
    (spawnItem k idx s).treasures = s.treasures := by
  unfold spawnItem
  split_ifs <;> simp [trySpawnItem_treasures]

theorem spawnItem_turn (k : ItemKind) (idx : ℕ) (s : GameState) :
    (spawnItem k idx s).turn = s.turn := by
  unfold spawnItem
  split_ifs <;> simp [trySpawnItem_turn]

theorem spawnItem_extraTurn (k : ItemKind) (idx : ℕ) (s : GameState) :
    (spawnItem k idx s).extraTurn = s.extraTurn := by
  unfold spawnItem
  split_ifs <;> simp [trySpawnItem_extraTurn]

theorem spawnItem_awaitingSwitch (k : ItemKind) (idx : ℕ) (s : GameState) :
    (spawnItem k idx s).awaitingSwitch = s.awaitingSwitch := by
  unfold spawnItem
  split_ifs <;> simp [trySpawnItem_awaitingSwitch]

theorem spawnItem_matchWins (k : ItemKind) (idx : ℕ) (s : GameState) :
    (spawnItem k idx s).matchWins = s.matchWins := by
  unfold spawnItem
  split_ifs <;> simp [trySpawnItem_matchWins]

theorem spawnItem_matchOver (k : ItemKind) (idx : ℕ) (s : GameState) :
    (spawnItem k idx s).matchOver = s.matchOver := by
  unfold spawnItem
  split_ifs <;> simp [trySpawnItem_matchOver]

theorem spawnItem_totalTurns (k : ItemKind) (idx : ℕ) (s : GameState) :
    (spawnItem k idx s).totalTurns = s.totalTurns := by
  unfold spawnItem
  split_ifs <;> simp [trySpawnItem_totalTurns]

theorem spawnOneOfThree_coins (k : Fin 3) (idx : ℕ) (s : GameState) :
    (spawnOneOfThree k idx s).coins = s.coins := by
  unfold spawnOneOfThree
  split_ifs <;> simp [spawnItem_coins]

theorem spawnOneOfThree_treasures (k : Fin 3) (idx : ℕ) (s : GameState) :
    (spawnOneOfThree k idx s).treasures = s.treasures := by
  unfold spawnOneOfThree
  split_ifs <;> simp [spawnItem_treasures]

theorem spawnOneOfThree_turn (k : Fin 3) (idx : ℕ) (s : GameState) :
    (spawnOneOfThree k idx s).turn = s.turn := by
  unfold spawnOneOfThree
  split_ifs <;> simp [spawnItem_turn]

theorem spawnOneOfThree_extraTurn (k : Fin 3) (idx : ℕ) (s : GameState) :
    (spawnOneOfThree k idx s).extraTurn = s.extraTurn := by
  unfold spawnOneOfThree
  split_ifs <;> simp [spawnItem_extraTurn]

theorem spawnOneOfThree_awaitingSwitch (k : Fin 3) (idx : ℕ) (s : GameState) :
    (spawnOneOfThree k idx s).awaitingSwitch = s.awaitingSwitch := by
  unfold spawnOneOfThree
  split_ifs <;> simp [spawnItem_awaitingSwitch]

theorem spawnOneOfThree_matchWins (k : Fin 3) (idx : ℕ) (s : GameState) :
    (spawnOneOfThree k idx s).matchWins = s.matchWins := by
  unfold spawnOneOfThree
  split_ifs <;> simp [spawnItem_matchWins]

theorem spawnOneOfThree_matchOver (k : Fin 3) (idx : ℕ) (s : GameState) :
    (spawnOneOfThree k idx s).matchOver = s.matchOver := by
  unfold spawnOneOfThree
  split_ifs <;> simp [spawnItem_matchOver]

theorem spawnOneOfThree_totalTurns (k : Fin 3) (idx : ℕ) (s : GameState) :
    (spawnOneOfThree k idx s).totalTurns = s.totalTurns := by
  unfold spawnOneOfThree
  split_ifs <;> simp [spawnItem_totalTurns]

/-! ### Claim C4: extra-turn resolution -/

/-- C4: when no body is moving, a switch is pending, and no drag is in
progress, the turn-switch evaluation clears `awaitingSwitch`; if the
extra-turn flag is set the turn is unchanged and the flag cleared, otherwise
the turn passes to the other side. -/
theorem C4_extra_turn_resolution (o : Oracle) (s : GameState)
    (hmov : anyMoving s = false) (haw : s.awaitingSwitch = true) (hdr : s.dragging = false) :
    (turnSwitchStep o s).awaitingSwitch = false ∧
    (s.extraTurn = true →
      (turnSwitchStep o s).turn = s.turn ∧ (turnSwitchStep o s).extraTurn = false) ∧
    (s.extraTurn = false → (turnSwitchStep o s).turn = OTHER s.turn) := by
  have hg : (!anyMoving s && s.awaitingSwitch && !s.dragging) = true := by
    rw [hmov, haw, hdr]
    rfl
  unfold turnSwitchStep
  rw [if_pos hg]
  cases hET : s.extraTurn with
  | true =>
    dsimp only
    refine ⟨?_, fun _ => ⟨?_, ?_⟩, fun hF => absurd hF (by simp)⟩ <;>
      · split_ifs <;>
          simp_all [spawnOneOfThree_awaitingSwitch, spawnOneOfThree_turn,
            spawnOneOfThree_extraTurn]
  | false =>
    dsimp only
    refine ⟨?_, fun hT => absurd hT (by simp), fun _ => ?_⟩ <;>
      · split_ifs <;>
          simp_all [spawnOneOfThree_awaitingSwitch, spawnOneOfThree_turn,
            spawnOneOfThree_extraTurn]

/-- Witness state for `C4_extra_turn_resolution`: both coins at rest, a shot
pending resolution, extra-turn flag set. -/
def sC4 : GameState :=
  { coins := fun i =>
      if i = 0 then ⟨100, 265, 0, 0, 14, none, true⟩ else ⟨790, 265, 0, 0, 14, none, true⟩,
    matchWins := fun _ => 0, turn := 0, extraTurn := true, awaitingSwitch := true,
    dragging := false, treasures := [⟨0, 2, 4, 8, none⟩], matchOver := false, totalTurns := 0,
    itemExtra := none, itemStop := none, itemRedirect := none, obstacles := [] }

/-- Oracle with all random draws fixed, reused by concrete witnesses. -/
def oW : Oracle := ⟨655, 0, 0, 0, 0, 0, 0, 0⟩

/-- Witness for `C4_extra_turn_resolution`. -/
theorem C4_extra_turn_resolution_witness :
    (turnSwitchStep oW sC4).awaitingSwitch = false ∧
    (sC4.extraTurn = true →
      (turnSwitchStep oW sC4).turn = sC4.turn ∧ (turnSwitchStep oW sC4).extraTurn = false) ∧
    (sC4.extraTurn = false → (turnSwitchStep oW sC4).turn = OTHER sC4.turn) :=
  C4_extra_turn_resolution oW sC4 (by decide) (by decide) (by decide)

/-! ### Claim C6: atomic steal -/

/-- C6: when the current-turn body carries nothing, the other body carries a
treasure, and the inter-body distance is within the steal threshold, one
steal evaluation transfers the treasure to the attacker (both `carrying`
references and the treasure's `carried_by` updated) and sets the extra-turn
flag; when any precondition fails the steal evaluation changes nothing. -/
theorem C6_atomic_steal (s : GameState) :
    (∀ tid : ℕ,
      hypotLe ((s.coins s.turn).x - (s.coins (OTHER s.turn)).x)
        ((s.coins s.turn).y - (s.coins (OTHER s.turn)).y) stealDistance →
      (s.coins s.turn).carrying = none →
      (s.coins (OTHER s.turn)).carrying = some tid →
      ((stealStep s).coins s.turn).carrying = some tid ∧
      ((stealStep s).coins (OTHER s.turn)).carrying = none ∧
      (stealStep s).treasures = s.treasures.map (fun (u : Treasure) =>
        if u.tid = tid then { u with carriedBy := some s.turn } else u) ∧
      (stealStep s).extraTurn = true) ∧
    (¬(hypotLe ((s.coins s.turn).x - (s.coins (OTHER s.turn)).x)
          ((s.coins s.turn).y - (s.coins (OTHER s.turn)).y) stealDistance ∧
        (s.coins s.turn).carrying = none ∧
        (s.coins (OTHER s.turn)).carrying ≠ none) →
      stealStep s = s) := by
  constructor
  · intro tid hle hatk hdfd
    unfold stealStep
    dsimp only
    rw [if_pos (hypotLeB_eq_true_iff.mpr hle), hatk, hdfd]
    dsimp only [Option.isNone_none, if_true]
    have hne : s.turn ≠ OTHER s.turn := (OTHER_ne s.turn).symm
    refine ⟨?_, ?_, ?_, rfl⟩
    · show ((((s.setCoin s.turn _).setCoin (OTHER s.turn) _)).coins s.turn).carrying = some tid
      rw [setCoin_coins_ne _ _ _ _ hne, setCoin_coins_same]
    · show ((((s.setCoin s.turn _).setCoin (OTHER s.turn) _)).coins (OTHER s.turn)).carrying
          = none
      rw [setCoin_coins_same]
    · show ((s.setCoin s.turn _).setCoin (OTHER s.turn) _).treasures.map _
          = s.treasures.map _
      rw [setCoin_treasures, setCoin_treasures]
  · intro h
    unfold stealStep
    dsimp only
    by_cases hle : hypotLe ((s.coins s.turn).x - (s.coins (OTHER s.turn)).x)
        ((s.coins s.turn).y - (s.coins (OTHER s.turn)).y) stealDistance
    · rw [if_pos (hypotLeB_eq_true_iff.mpr hle)]
      by_cases hatk : (s.coins s.turn).carrying = none
      · rw [hatk]
        dsimp only [Option.isNone_none, if_true]
        cases hdfd : (s.coins (OTHER s.turn)).carrying with
        | none => rfl
        | some tid =>
          exact absurd ⟨hle, hatk, by rw [hdfd]; simp⟩ h
      · rw [if_neg (by simp [Option.isNone_iff_eq_none, hatk])]
    · rw [if_neg (by simp [hypotLeB, hle])]

/-- Witness state for `C6_atomic_steal`: side 0 to act and empty-handed,
side 1 carrying treasure 3, bodies 20 apart (≤ 33). -/
def sC6 : GameState :=
  { coins := fun i =>
      if i = 0 then ⟨100, 100, 0, 0, 14, none, true⟩ else ⟨120, 100, 0, 0, 14, some 3, true⟩,
    matchWins := fun _ => 0, turn := 0, extraTurn := false, awaitingSwitch := false,
    dragging := false, treasures := [⟨3, 2, 4, 8, some 1⟩], matchOver := false, totalTurns := 0,
    itemExtra := none, itemStop := none, itemRedirect := none, obstacles := [] }

/-- Witness for `C6_atomic_steal`, every hypothesis discharged at `sC6`. -/
theorem C6_atomic_steal_witness :
    ((stealStep sC6).coins sC6.turn).carrying = some 3 ∧
    ((stealStep sC6).coins (OTHER sC6.turn)).carrying = none ∧
    (stealStep sC6).treasures = sC6.treasures.map (fun (u : Treasure) =>
      if u.tid = 3 then { u with carriedBy := some sC6.turn } else u) ∧
    (stealStep sC6).extraTurn = true :=
  (C6_atomic_steal sC6).1 3 (by decide) (by decide) (by decide)

/-! ### Treasure pickup lemmas and claim C5 -/

theorem pickup1_of_some (i : Fin 2) (s : GameState) (h : (s.coins i).carrying ≠ none) :
    pickup1 i s = s := by
  unfold pickup1
  dsimp only
  rw [if_neg (by simp [Option.isNone_iff_eq_none, h])]

theorem pickup1_of_find_none (i : Fin 2) (s : GameState)
    (hempty : (s.coins i).carrying = none)
    (h : s.treasures.find? (pickupCondB (s.coins i)) = none) :
    pickup1 i s = s := by
  unfold pickup1
  dsimp only
  rw [hempty, h]
  rfl

theorem pickup1_fires (i : Fin 2) (s : GameState) (t : Treasure)
    (hempty : (s.coins i).carrying = none)
    (hfind : s.treasures.find? (pickupCondB (s.coins i)) = some t) :
    ((pickup1 i s).coins i).carrying = some t.tid ∧
    (∀ j : Fin 2, j ≠ i → (pickup1 i s).coins j = s.coins j) ∧
    (pickup1 i s).treasures = s.treasures.map (fun (u : Treasure) =>
      if u.tid = t.tid then { u with carriedBy := some i } else u) ∧
    (pickup1 i s).turn = s.turn ∧
    (i = s.turn → (pickup1 i s).extraTurn = true) ∧
    (i ≠ s.turn → (pickup1 i s).extraTurn = s.extraTurn) ∧
    (pickup1 i s).awaitingSwitch = s.awaitingSwitch ∧
    (pickup1 i s).matchOver = s.matchOver ∧
    (pickup1 i s).matchWins = s.matchWins := by
  unfold pickup1
  dsimp only
  rw [hempty, hfind]
  simp only [Option.isNone_none, if_true]
  split_ifs with hit
  · refine ⟨by simp, fun j hj => by simp [setCoin_coins_ne _ _ _ _ hj], rfl, rfl,
      fun _ => rfl, fun hne => absurd hit hne, rfl, rfl, rfl⟩
  · refine ⟨by simp, fun j hj => by simp [setCoin_coins_ne _ _ _ _ hj], rfl, rfl,
      fun heq => absurd heq hit, fun _ => rfl, rfl, rfl, rfl⟩

/-- C5 (amended): with the round's sole treasure free and body `i`
empty-handed within pickup range, body `i` becomes the carrier **provided no
smaller-indexed body is also empty-handed and in range** (the pickup loop
scans bodies in index order, so the smallest qualifying index takes the
treasure); the extra-turn flag is set exactly when the picking body's side is
the current turn, and is left unchanged when it is not. -/
theorem C5_conditional_pickup (s : GameState) (i : Fin 2) (t : Treasure)
    (hT : s.treasures = [t]) (hfree : t.carriedBy = none)
    (hempty : (s.coins i).carrying = none)
    (hin : hypotLe ((s.coins i).x - (treasurePos t).1) ((s.coins i).y - (treasurePos t).2)
      ((s.coins i).r + 12))
    (hprev : ∀ j : Fin 2, (j : ℕ) < (i : ℕ) →
      ¬((s.coins j).carrying = none ∧
        hypotLe ((s.coins j).x - (treasurePos t).1) ((s.coins j).y - (treasurePos t).2)
          ((s.coins j).r + 12))) :
    ((treasurePickupStep s).coins i).carrying = some t.tid ∧
    (treasurePickupStep s).treasures = [{ t with carriedBy := some i }] ∧
    (i = s.turn → (treasurePickupStep s).extraTurn = true) ∧
    (i ≠ s.turn → (treasurePickupStep s).extraTurn = s.extraTurn) := by
  have hcond : pickupCondB (s.coins i) t = true := by
    simp [pickupCondB, hfree, hin]
  have hfind : s.treasures.find? (pickupCondB (s.coins i)) = some t := by
    rw [hT]
    simp [List.find?_cons_of_pos _ hcond]
  unfold treasurePickupStep
  fin_cases i
  · obtain ⟨ha, hb, hc, _, he, hf, _, _, _⟩ := pickup1_fires 0 s t hempty hfind
    have htre : (pickup1 0 s).treasures = [{ t with carriedBy := some 0 }] := by
      rw [hc, hT]
      simp
    have hstep : pickup1 1 (pickup1 0 s) = pickup1 0 s := by
      by_cases h1 : ((pickup1 0 s).coins 1).carrying = none
      · refine pickup1_of_find_none 1 _ h1 ?_
        rw [htre]
        simp [List.find?, pickupCondB]
      · exact pickup1_of_some 1 _ h1
    rw [hstep]
    exact ⟨ha, htre, he, hf⟩
  · have h00 : pickup1 0 s = s := by
      by_cases h0 : (s.coins 0).carrying = none
      · refine pickup1_of_find_none 0 s h0 ?_
        have hnin := hprev 0 (by norm_num)
        rw [hT]
        have : pickupCondB (s.coins 0) t = false := by
          by_contra hcc
          have hcc' : pickupCondB (s.coins 0) t = true := by
            revert hcc
            cases pickupCondB (s.coins 0) t <;> simp
          have hpq : t.carriedBy = none ∧
              hypotLe ((s.coins 0).x - (treasurePos t).1) ((s.coins 0).y - (treasurePos t).2)
                ((s.coins 0).r + 12) := by
            simpa [pickupCondB] using hcc'
          exact hnin ⟨h0, hpq.2⟩
        simp [List.find?, this]
      · exact pickup1_of_some 0 s h0
    rw [h00]
    obtain ⟨ha, _, hc, _, he, hf, _, _, _⟩ := pickup1_fires 1 s t hempty hfind
    have htre : (pickup1 1 s).treasures = [{ t with carriedBy := some 1 }] := by
      rw [hc, hT]
      simp
    exact ⟨ha, htre, he, hf⟩

/-- The sole free treasure of the C5 states, at cell (2,4), center (445,265). -/
def tC5 : Treasure := ⟨7, 2, 4, 8, none⟩

/-- Counterexample state for C5 as stated: both bodies empty-handed within
pickup range of the sole free treasure (20 pixels above/below it), side 1 to
act. -/
def sC5 : GameState :=
  { coins := fun i =>
      if i = 0 then ⟨445, 245, 0, 0, 14, none, true⟩ else ⟨445, 285, 0, 0, 14, none, true⟩,
    matchWins := fun _ => 0, turn := 1, extraTurn := false, awaitingSwitch := false,
    dragging := false, treasures := [tC5], matchOver := false, totalTurns := 0,
    itemExtra := none, itemStop := none, itemRedirect := none, obstacles := [] }

/-- C5, counterexample to the claim as stated: body 1 is empty-handed and
within `r + 12` of the free treasure, yet after the pickup pass it carries
nothing — body 0 (scanned first) took the treasure — and, although body 1 is
the current turn's body and touched the treasure, no extra turn is granted
(the non-turn body 0 got the pickup). -/
theorem C5_pickup_counterexample :
    ((sC5.coins 1).carrying = none ∧ tC5.carriedBy = none ∧ sC5.treasures = [tC5] ∧
      hypotLe ((sC5.coins 1).x - (treasurePos tC5).1) ((sC5.coins 1).y - (treasurePos tC5).2)
        ((sC5.coins 1).r + 12)) ∧
    ((treasurePickupStep sC5).coins 1).carrying = none ∧
    ((treasurePickupStep sC5).coins 0).carrying = some tC5.tid ∧
    (treasurePickupStep sC5).extraTurn = false := by
  decide

/-- Witness state for `C5_conditional_pickup`: body 0 far away, body 1 in
range of the free treasure, side 0 to act. -/
def sC5w : GameState :=
  { coins := fun i =>
      if i = 0 then ⟨100, 100, 0, 0, 14, none, true⟩ else ⟨445, 285, 0, 0, 14, none, true⟩,
    matchWins := fun _ => 0, turn := 0, extraTurn := false, awaitingSwitch := false,
    dragging := false, treasures := [tC5], matchOver := false, totalTurns := 0,
    itemExtra := none, itemStop := none, itemRedirect := none, obstacles := [] }

/-- Witness for `C5_conditional_pickup`: the non-turn body 1 picks up and the
extra-turn flag is left unchanged. -/
theorem C5_conditional_pickup_witness :
    ((treasurePickupStep sC5w).coins 1).carrying = some tC5.tid ∧
    (treasurePickupStep sC5w).treasures = [{ tC5 with carriedBy := some 1 }] ∧
    ((1 : Fin 2) = sC5w.turn → (treasurePickupStep sC5w).extraTurn = true) ∧
    ((1 : Fin 2) ≠ sC5w.turn → (treasurePickupStep sC5w).extraTurn = sC5w.extraTurn) :=
  C5_conditional_pickup sC5w 1 tC5 rfl rfl (by decide) (by decide) (by decide)

/-! ### Item pickup lemmas and claim C7 -/

theorem getSlot_applyItemEffect (k' k : ItemKind) (p : Fin 2) (o : Oracle) (s : GameState) :
    getSlot k' (applyItemEffect k p o s) = getSlot k' s := by
  cases k
  · unfold applyItemEffect
    split_ifs <;> cases k' <;> rfl
  · unfold applyItemEffect
    cases k' <;> rfl
  · unfold applyItemEffect
    cases k' <;> rfl

theorem applyItemEffect_pos (k : ItemKind) (p : Fin 2) (o : Oracle) (s : GameState) (i : Fin 2) :
    ((applyItemEffect k p o s).coins i).x = (s.coins i).x ∧
    ((applyItemEffect k p o s).coins i).y = (s.coins i).y ∧
    ((applyItemEffect k p o s).coins i).r = (s.coins i).r := by
  cases k
  · unfold applyItemEffect
    split_ifs <;> exact ⟨rfl, rfl, rfl⟩
  · unfold applyItemEffect
    by_cases hip : i = p
    · subst hip
      simp [GameState.setCoin]
    · simp [GameState.setCoin, Function.update_noteq hip]
  · unfold applyItemEffect
    dsimp only
    by_cases hip : i = p
    · subst hip
      simp [GameState.setCoin]
    · simp [GameState.setCoin, Function.update_noteq hip]

theorem itemStep_pos (k : ItemKind) (lp : Fin 2 → ℚ × ℚ) (o : Oracle) (s : GameState)
    (i : Fin 2) :
    ((itemStep k lp o s).coins i).x = (s.coins i).x ∧
    ((itemStep k lp o s).coins i).y = (s.coins i).y ∧
    ((itemStep k lp o s).coins i).r = (s.coins i).r := by
  unfold itemStep
  cases hslot : getSlot k s with
  | none => exact ⟨rfl, rfl, rfl⟩
  | some it =>
    dsimp only
    split_ifs with h1 h2
    · have h := applyItemEffect_pos k 0 o (setSlot k none s) i
      rwa [setSlot_coins] at h
    · have h := applyItemEffect_pos k 1 o (setSlot k none s) i
      rwa [setSlot_coins] at h
    · exact ⟨rfl, rfl, rfl⟩

theorem crossed_congr (s s' : GameState) (lp : Fin 2 → ℚ × ℚ) (ipos : ℚ × ℚ) (p : Fin 2)
    (hx : (s'.coins p).x = (s.coins p).x) (hy : (s'.coins p).y = (s.coins p).y)
    (hr : (s'.coins p).r = (s.coins p).r) :
    crossed s' lp ipos p = crossed s lp ipos p := by
  unfold crossed
  rw [hx, hy, hr]

theorem itemStep_slot_other (k k' : ItemKind) (h : k' ≠ k) (lp : Fin 2 → ℚ × ℚ) (o : Oracle)
    (s : GameState) : getSlot k' (itemStep k lp o s) = getSlot k' s := by
  unfold itemStep
  cases hslot : getSlot k s with
  | none => rfl
  | some it =>
    dsimp only
    split_ifs with h1 h2
    · rw [getSlot_applyItemEffect, getSlot_setSlot_ne _ _ _ _ h]
    · rw [getSlot_applyItemEffect, getSlot_setSlot_ne _ _ _ _ h]
    · rfl

theorem itemStep_none (k : ItemKind) (lp : Fin 2 → ℚ × ℚ) (o : Oracle) (s : GameState)
    (h : getSlot k s = none) : itemStep k lp o s = s := by
  unfold itemStep
  rw [h]

theorem itemStep_consume (k : ItemKind) (lp : Fin 2 → ℚ × ℚ) (o : Oracle) (s : GameState)
    (it : Item) (h : getSlot k s = some it) :
    getSlot k (itemStep k lp o s) = none ↔
      (crossed s lp (itemPos it) 0 = true ∨ crossed s lp (itemPos it) 1 = true) := by
  unfold itemStep
  rw [h]
  dsimp only
  split_ifs with h1 h2
  · constructor
    · intro _
      simpa [Bool.or_eq_true] using h1
    · intro _
      rw [getSlot_applyItemEffect, getSlot_setSlot_same]
  · constructor
    · intro _
      simpa [Bool.or_eq_true] using h1
    · intro _
      rw [getSlot_applyItemEffect, getSlot_setSlot_same]
  · constructor
    · intro hnone
      rw [h] at hnone
      cases hnone
    · intro hor
      exact absurd (by simpa [Bool.or_eq_true] using hor) h1

/-- C7: (1) for every item kind, a live item is consumed by the frame's item
pass exactly when some body's distance to it strictly exceeded that body's
pickup radius last frame and is within it now; (2) with only the freeze item
live, the effect goes to the qualifying body of smallest index and only to
it, the other body being untouched, while the slot is cleared in the same
step; (3) a body whose position did not change (e.g. resting exactly on the
pickup boundary) never triggers a crossing. -/
theorem C7_edge_crossing_item_pickup (s : GameState) (lastPos : Fin 2 → ℚ × ℚ) (o : Oracle) :
    (∀ (k : ItemKind) (it : Item), getSlot k s = some it →
      (getSlot k (checkItemPickup lastPos o s) = none ↔
        (crossed s lastPos (itemPos it) 0 = true ∨ crossed s lastPos (itemPos it) 1 = true))) ∧
    (∀ it : Item, s.itemExtra = none → s.itemRedirect = none → s.itemStop = some it →
      (crossed s lastPos (itemPos it) 0 = true →
        ((checkItemPickup lastPos o s).coins 0).vx = 0 ∧
        ((checkItemPickup lastPos o s).coins 0).vy = 0 ∧
        ((checkItemPickup lastPos o s).coins 0).resting = true ∧
        (checkItemPickup lastPos o s).coins 1 = s.coins 1 ∧
        (checkItemPickup lastPos o s).itemStop = none) ∧
      (crossed s lastPos (itemPos it) 0 = false → crossed s lastPos (itemPos it) 1 = true →
        ((checkItemPickup lastPos o s).coins 1).vx = 0 ∧
        ((checkItemPickup lastPos o s).coins 1).vy = 0 ∧
        ((checkItemPickup lastPos o s).coins 1).resting = true ∧
        (checkItemPickup lastPos o s).coins 0 = s.coins 0 ∧
        (checkItemPickup lastPos o s).itemStop = none)) ∧
    (∀ (ipos : ℚ × ℚ) (p : Fin 2), lastPos p = ((s.coins p).x, (s.coins p).y) →
      crossed s lastPos ipos p = false) := by
  refine ⟨?_, ?_, ?_⟩
  · intro k it h
    cases k
    · have h1 := itemStep_consume .extra lastPos o s it h
      unfold checkItemPickup
      rw [itemStep_slot_other .redirect .extra (by simp) lastPos o,
        itemStep_slot_other .stop .extra (by simp) lastPos o]
      exact h1
    · unfold checkItemPickup
      rw [itemStep_slot_other .redirect .stop (by simp) lastPos o]
      have hs1 : getSlot .stop (itemStep .extra lastPos o s) = some it := by
        rw [itemStep_slot_other .extra .stop (by simp) lastPos o]
        exact h
      rw [itemStep_consume .stop lastPos o _ it hs1]
      constructor
      · intro hor
        rcases hor with h0 | h0
        · exact Or.inl (by
            rw [← h0]
            exact (crossed_congr _ _ lastPos (itemPos it) 0 (itemStep_pos _ _ _ _ _).1
              (itemStep_pos _ _ _ _ _).2.1 (itemStep_pos _ _ _ _ _).2.2).symm)
        · exact Or.inr (by
            rw [← h0]
            exact (crossed_congr _ _ lastPos (itemPos it) 1 (itemStep_pos _ _ _ _ _).1
              (itemStep_pos _ _ _ _ _).2.1 (itemStep_pos _ _ _ _ _).2.2).symm)
      · intro hor
        rcases hor with h0 | h0
        · exact Or.inl (by
            rw [← h0]
            exact crossed_congr _ _ lastPos (itemPos it) 0 (itemStep_pos _ _ _ _ _).1
              (itemStep_pos _ _ _ _ _).2.1 (itemStep_pos _ _ _ _ _).2.2)
        · exact Or.inr (by
            rw [← h0]
            exact crossed_congr _ _ lastPos (itemPos it) 1 (itemStep_pos _ _ _ _ _).1
              (itemStep_pos _ _ _ _ _).2.1 (itemStep_pos _ _ _ _ _).2.2)
    · unfold checkItemPickup
      have hs2 : getSlot .redirect (itemStep .stop lastPos o (itemStep .extra lastPos o s))
          = some it := by
        rw [itemStep_slot_other .stop .redirect (by simp) lastPos o,
          itemStep_slot_other .extra .redirect (by simp) lastPos o]
        exact h
      rw [itemStep_consume .redirect lastPos o _ it hs2]
      have hcr : ∀ p : Fin 2,
          crossed (itemStep .stop lastPos o (itemStep .extra lastPos o s)) lastPos (itemPos it) p
            = crossed s lastPos (itemPos it) p := by
        intro p
        have e1 := itemStep_pos .stop lastPos o (itemStep .extra lastPos o s) p
        have e2 := itemStep_pos .extra lastPos o s p
        exact crossed_congr _ _ lastPos (itemPos it) p (by rw [e1.1, e2.1]) (by rw [e1.2.1, e2.2.1])
          (by rw [e1.2.2, e2.2.2])
      rw [hcr 0, hcr 1]
  · intro it hE hR hS
    have hchk : checkItemPickup lastPos o s = itemStep .stop lastPos o s := by
      unfold checkItemPickup
      rw [itemStep_none .extra lastPos o s (by simpa [getSlot] using hE)]
      exact itemStep_none .redirect lastPos o _ (by
        rw [itemStep_slot_other .stop .redirect (by simp) lastPos o]
        simpa [getSlot] using hR)
    rw [hchk]
    constructor
    · intro hc0
      unfold itemStep
      rw [show getSlot .stop s = some it from hS]
      dsimp only
      rw [if_pos (by rw [hc0]; rfl), if_pos hc0]
      unfold applyItemEffect
      refine ⟨?_, ?_, ?_, ?_, ?_⟩
      · simp [GameState.setCoin]
      · simp [GameState.setCoin]
      · simp [GameState.setCoin]
      · simp [GameState.setCoin, Function.update_noteq (show (1 : Fin 2) ≠ 0 by decide)]
      · rfl
    · intro hc0 hc1
      unfold itemStep
      rw [show getSlot .stop s = some it from hS]
      dsimp only
      rw [if_pos (by rw [hc0, hc1]; rfl), if_neg (by rw [hc0]; simp)]
      unfold applyItemEffect
      refine ⟨?_, ?_, ?_, ?_, ?_⟩
      · simp [GameState.setCoin]
      · simp [GameState.setCoin]
      · simp [GameState.setCoin]
      · simp [GameState.setCoin, Function.update_noteq (show (0 : Fin 2) ≠ 1 by decide)]
      · rfl
  · intro ipos p hlp
    unfold crossed
    rw [hlp]
    dsimp only
    cases hypotLeB ((s.coins p).x - ipos.1) ((s.coins p).y - ipos.2) ((s.coins p).r + 12) <;> rfl

/-- Witness state for `C7_edge_crossing_item_pickup`: only the freeze item is
live, at cell (2,4), center (445,265); body 0 was at distance 45 and is now
at distance 15 (a crossing), body 1 is far away. -/
def sC7 : GameState :=
  { coins := fun i =>
      if i = 0 then ⟨430, 265, 3, 0, 14, none, false⟩ else ⟨100, 100, 0, 0, 14, none, true⟩,
    matchWins := fun _ => 0, turn := 0, extraTurn := false, awaitingSwitch := true,
    dragging := false, treasures := [], matchOver := false, totalTurns := 0,
    itemExtra := none, itemStop := some ⟨2, 4⟩, itemRedirect := none, obstacles := [] }

/-- Last-frame positions for the C7 witness. -/
def lpC7 : Fin 2 → ℚ × ℚ := fun i => if i = 0 then (400, 265) else (100, 100)

/-- Witness for `C7_edge_crossing_item_pickup`: the consumption iff at the
live slot, the first-index effect, and the no-crossing fact for the
stationary body 1. -/
theorem C7_edge_crossing_item_pickup_witness :
    (getSlot .stop (checkItemPickup lpC7 oW sC7) = none ↔
      (crossed sC7 lpC7 (itemPos ⟨2, 4⟩) 0 = true ∨ crossed sC7 lpC7 (itemPos ⟨2, 4⟩) 1 = true)) ∧
    (((checkItemPickup lpC7 oW sC7).coins 0).vx = 0 ∧
      ((checkItemPickup lpC7 oW sC7).coins 0).vy = 0 ∧
      ((checkItemPickup lpC7 oW sC7).coins 0).resting = true ∧
      (checkItemPickup lpC7 oW sC7).coins 1 = sC7.coins 1 ∧
      (checkItemPickup lpC7 oW sC7).itemStop = none) ∧
    crossed sC7 lpC7 (100, 100) 1 = false :=
  ⟨(C7_edge_crossing_item_pickup sC7 lpC7 oW).1 .stop ⟨2, 4⟩ (by decide),
   ((C7_edge_crossing_item_pickup sC7 lpC7 oW).2.1 ⟨2, 4⟩ rfl rfl rfl).1 (by decide),
   (C7_edge_crossing_item_pickup sC7 lpC7 oW).2.2 (100, 100) 1 (by decide)⟩

/-! ### The carry-consistency invariant (claim C1) -/

/-- Every body either carries nothing or carries a listed treasure whose
`carried_by` points back at it. -/
def carriesOK (s : GameState) : Prop :=
  ∀ i : Fin 2, (s.coins i).carrying = none ∨
    ∃ t ∈ s.treasures, (s.coins i).carrying = some t.tid ∧ t.carriedBy = some i

/-- Every listed treasure marked as carried is the `carrying` of that body. -/
def backRefOK (s : GameState) : Prop :=
  ∀ t ∈ s.treasures, ∀ i : Fin 2, t.carriedBy = some i → (s.coins i).carrying = some t.tid

/-- The carry-state invariant: treasure ids are pairwise distinct and the
`carrying` / `carried_by` references agree in both directions. -/
def Inv (s : GameState) : Prop :=
  (s.treasures.map Treasure.tid).Nodup ∧ carriesOK s ∧ backRefOK s

instance (s : GameState) : Decidable (carriesOK s) := by
  unfold carriesOK
  infer_instance

instance (s : GameState) : Decidable (backRefOK s) := by
  unfold backRefOK
  infer_instance

instance (s : GameState) : Decidable (Inv s) := by
  unfold Inv
  infer_instance

theorem inv_congr (s s' : GameState)
    (hc : ∀ i, (s'.coins i).carrying = (s.coins i).carrying)
    (ht : s'.treasures = s.treasures) (h : Inv s) : Inv s' := by
  obtain ⟨h1, h2, h3⟩ := h
  refine ⟨by rw [ht]; exact h1, ?_, ?_⟩
  · intro i
    rw [hc i, ht]
    exact h2 i
  · intro t htm i hcb
    rw [hc i]
    rw [ht] at htm
    exact h3 t htm i hcb

theorem coinUpdate_carrying (obs : List Rect) (c : Coin) :
    (coinUpdate obs c).carrying = c.carrying := by
  unfold coinUpdate
  split_ifs with h
  · rfl
  · have hwb : ∀ c' : Coin, (wallBounce c').carrying = c'.carrying := by
      intro c'
      unfold wallBounce bounceBottomWall bounceTopWall bounceRightWall bounceLeftWall
      split_ifs <;> rfl
    have hob : ∀ (l : List Rect) (c' : Coin),
        (l.foldl obstacleBounce c').carrying = c'.carrying := by
      intro l
      induction l with
      | nil => intro c'; rfl
      | cons r l ih =>
        intro c'
        rw [List.foldl_cons, ih]
        unfold obstacleBounce
        dsimp only
        split_ifs <;> rfl
    rw [hob, hwb]
    rfl

theorem moveCoins_carry (s : GameState) :
    (∀ i, ((moveCoins s).coins i).carrying = (s.coins i).carrying) ∧
    (moveCoins s).treasures = s.treasures :=
  ⟨fun _ => coinUpdate_carrying _ _, rfl⟩

theorem applyItemEffect_carry (k : ItemKind) (p : Fin 2) (o : Oracle) (s : GameState) :
    (∀ i, ((applyItemEffect k p o s).coins i).carrying = (s.coins i).carrying) ∧
    (applyItemEffect k p o s).treasures = s.treasures := by
  cases k
  · unfold applyItemEffect
    split_ifs <;> exact ⟨fun _ => rfl, rfl⟩
  · unfold applyItemEffect
    refine ⟨fun i => ?_, rfl⟩
    by_cases hip : i = p
    · subst hip
      simp [GameState.setCoin]
    · simp [GameState.setCoin, Function.update_noteq hip]
  · unfold applyItemEffect
    dsimp only
    refine ⟨fun i => ?_, rfl⟩
    by_cases hip : i = p
    · subst hip
      simp [GameState.setCoin]
    · simp [GameState.setCoin, Function.update_noteq hip]

theorem itemStep_carry (k : ItemKind) (lp : Fin 2 → ℚ × ℚ) (o : Oracle) (s : GameState) :
    (∀ i, ((itemStep k lp o s).coins i).carrying = (s.coins i).carrying) ∧
    (itemStep k lp o s).treasures = s.treasures := by
  unfold itemStep
  cases hslot : getSlot k s with
  | none => exact ⟨fun _ => rfl, rfl⟩
  | some it =>
    dsimp only
    split_ifs with h1 h2
    · obtain ⟨hc, ht⟩ := applyItemEffect_carry k 0 o (setSlot k none s)
      refine ⟨fun i => ?_, by rw [ht, setSlot_treasures]⟩
      rw [hc i, setSlot_coins]
    · obtain ⟨hc, ht⟩ := applyItemEffect_carry k 1 o (setSlot k none s)
      refine ⟨fun i => ?_, by rw [ht, setSlot_treasures]⟩
      rw [hc i, setSlot_coins]
    · exact ⟨fun _ => rfl, rfl⟩

theorem checkItemPickup_carry (lp : Fin 2 → ℚ × ℚ) (o : Oracle) (s : GameState) :
    (∀ i, ((checkItemPickup lp o s).coins i).carrying = (s.coins i).carrying) ∧
    (checkItemPickup lp o s).treasures = s.treasures := by
  unfold checkItemPickup
  obtain ⟨c1, t1⟩ := itemStep_carry .extra lp o s
  obtain ⟨c2, t2⟩ := itemStep_carry .stop lp o (itemStep .extra lp o s)
  obtain ⟨c3, t3⟩ := itemStep_carry .redirect lp o
    (itemStep .stop lp o (itemStep .extra lp o s))
  exact ⟨fun i => by rw [c3 i, c2 i, c1 i], by rw [t3, t2, t1]⟩

theorem resolveWith_carrying (d : ℚ) (a b : Coin) :
    (resolveWith d a b).1.carrying = a.carrying ∧
    (resolveWith d a b).2.carrying = b.carrying := by
  unfold resolveWith
  dsimp only
  split_ifs <;> exact ⟨rfl, rfl⟩

theorem collisionStep_carry (o : Oracle) (s : GameState) :
    (∀ i, ((collisionStep o s).coins i).carrying = (s.coins i).carrying) ∧
    (collisionStep o s).treasures = s.treasures := by
  refine ⟨fun i => ?_, rfl⟩
  unfold collisionStep
  fin_cases i
  · simpa using (resolveWith_carrying o.collDist (s.coins 0) (s.coins 1)).1
  · simpa using (resolveWith_carrying o.collDist (s.coins 0) (s.coins 1)).2

theorem tid_inj {l : List Treasure} (hnd : (l.map Treasure.tid).Nodup) {u v : Treasure}
    (hu : u ∈ l) (hv : v ∈ l) (h : u.tid = v.tid) : u = v :=
  List.inj_on_of_nodup_map hnd hu hv h

theorem map_setCarried_tids (l : List Treasure) (tid : ℕ) (j : Fin 2) :
    (l.map (fun (u : Treasure) =>
      if u.tid = tid then { u with carriedBy := some j } else u)).map Treasure.tid
      = l.map Treasure.tid := by
  induction l with
  | nil => rfl
  | cons w rest ih =>
    simp only [List.map_cons, ih]
    by_cases hw : w.tid = tid <;> simp [hw]

theorem eraseP_tid_mem {tid : ℕ} : ∀ l : List Treasure, (l.map Treasure.tid).Nodup →
    ∀ u ∈ l.eraseP (fun w => w.tid == tid), u ∈ l ∧ u.tid ≠ tid := by
  intro l
  induction l with
  | nil =>
    intro _ u hu
    simp at hu
  | cons w rest ih =>
    intro hnd u hu
    by_cases hw : w.tid = tid
    · rw [List.eraseP_cons_of_pos (by simpa using hw)] at hu
      refine ⟨List.mem_cons_of_mem _ hu, fun hut => ?_⟩
      exact (List.nodup_cons.mp (by simpa using hnd)).1
        (List.mem_map.mpr ⟨u, hu, by rw [hut, hw]⟩)
    · rw [List.eraseP_cons_of_neg (by simpa using hw)] at hu
      rcases List.mem_cons.mp hu with rfl | hu'
      · exact ⟨List.mem_cons_self _ _, hw⟩
      · obtain ⟨hm, hne⟩ := ih (List.nodup_cons.mp (by simpa using hnd)).2 u hu'
        exact ⟨List.mem_cons_of_mem _ hm, hne⟩

theorem mem_eraseP_tid {tid : ℕ} : ∀ l : List Treasure, ∀ u ∈ l, u.tid ≠ tid →
    u ∈ l.eraseP (fun w => w.tid == tid) := by
  intro l
  induction l with
  | nil =>
    intro u hu
    cases hu
  | cons w rest ih =>
    intro u hu hne
    by_cases hw : w.tid = tid
    · rw [List.eraseP_cons_of_pos (by simpa using hw)]
      rcases List.mem_cons.mp hu with rfl | hu'
      · exact absurd hw hne
      · exact hu'
    · rw [List.eraseP_cons_of_neg (by simpa using hw)]
      rcases List.mem_cons.mp hu with rfl | hu'
      · exact List.mem_cons_self _ _
      · exact List.mem_cons_of_mem _ (ih u hu' hne)

theorem pickup1_inv (i : Fin 2) (s : GameState) (h : Inv s) : Inv (pickup1 i s) := by
  by_cases hc : (s.coins i).carrying = none
  case neg => rw [pickup1_of_some i s hc]; exact h
  cases hfind : s.treasures.find? (pickupCondB (s.coins i)) with
  | none =>
    rw [pickup1_of_find_none i s hc hfind]
    exact h
  | some t =>
    obtain ⟨ha, hb, htre, _, _, _, _, _, _⟩ := pickup1_fires i s t hc hfind
    have htmem : t ∈ s.treasures := List.mem_of_find?_eq_some hfind
    have htcond : pickupCondB (s.coins i) t = true := List.find?_some hfind
    have htfree : t.carriedBy = none := by
      unfold pickupCondB at htcond
      exact Option.isNone_iff_eq_none.mp ((Bool.and_eq_true _ _).mp htcond).1
    obtain ⟨hnd, hcar, hback⟩ := h
    refine ⟨?_, ?_, ?_⟩
    · rw [htre, map_setCarried_tids]
      exact hnd
    · intro j
      by_cases hji : j = i
      · subst hji
        right
        refine ⟨if t.tid = t.tid then { t with carriedBy := some j } else t,
          by rw [htre]; exact List.mem_map_of_mem _ htmem, ?_, ?_⟩ <;> simp [ha]
      · rw [hb j hji]
        rcases hcar j with hnone | ⟨u, hu, hcu, hbu⟩
        · exact Or.inl hnone
        · right
          have hne : u.tid ≠ t.tid := by
            intro heq
            have heq2 : u = t := tid_inj hnd hu htmem heq
            rw [heq2, htfree] at hbu
            cases hbu
          refine ⟨if u.tid = t.tid then { u with carriedBy := some i } else u,
            by rw [htre]; exact List.mem_map_of_mem _ hu, ?_, ?_⟩ <;> simp [hne, hcu, hbu]
    · intro v hv j hvb
      rw [htre] at hv
      obtain ⟨u, hu, rfl⟩ := List.mem_map.mp hv
      by_cases hut : u.tid = t.tid
      · simp only [if_pos hut] at hvb ⊢
        have hij : i = j := Option.some.inj hvb
        subst hij
        rw [ha]
        simp [hut]
      · simp only [if_neg hut] at hvb ⊢
        have hji : j ≠ i := by
          intro hji
          subst hji
          have h2 := hback u hu j hvb
          rw [hc] at h2
          cases h2
        rw [hb j hji]
        exact hback u hu j hvb

theorem stealStep_inv (s : GameState) (h : Inv s) : Inv (stealStep s) := by
  unfold stealStep
  dsimp only
  cases hlb : hypotLeB ((s.coins s.turn).x - (s.coins (OTHER s.turn)).x)
      ((s.coins s.turn).y - (s.coins (OTHER s.turn)).y) stealDistance with
  | false =>
    rw [if_neg (by simp)]
    exact h
  | true =>
    rw [if_pos rfl]
    cases hin : (s.coins s.turn).carrying.isNone with
    | false =>
      rw [if_neg (by simp)]
      exact h
    | true =>
      rw [if_pos rfl]
      have hatk : (s.coins s.turn).carrying = none := Option.isNone_iff_eq_none.mp hin
      cases hdc : (s.coins (OTHER s.turn)).carrying with
      | none => exact h
      | some tid =>
        dsimp only
        obtain ⟨hnd, hcar, hback⟩ := h
        have hne : s.turn ≠ OTHER s.turn := (OTHER_ne s.turn).symm
        have hdfd : ∃ w ∈ s.treasures, w.tid = tid ∧ w.carriedBy = some (OTHER s.turn) := by
          rcases hcar (OTHER s.turn) with hn | ⟨w, hw, hcw, hbw⟩
          · rw [hdc] at hn
            cases hn
          · rw [hdc] at hcw
            exact ⟨w, hw, (Option.some.inj hcw).symm, hbw⟩
        refine ⟨?_, ?_, ?_⟩
        · simp only [setCoin_treasures]
          rw [map_setCarried_tids]
          exact hnd
        · intro j
          rcases fin2_eq_or j s.turn with rfl | rfl
          · right
            obtain ⟨w, hw, hwt, _⟩ := hdfd
            refine ⟨if w.tid = tid then { w with carriedBy := some s.turn } else w,
              List.mem_map_of_mem _ hw, ?_, ?_⟩
            · rw [setCoin_coins_ne _ _ _ _ hne, setCoin_coins_same]
              simp [hwt]
            · simp [hwt]
          · left
            rw [setCoin_coins_same]
        · intro v hv j hvb
          simp only [setCoin_treasures] at hv
          obtain ⟨u, hu, rfl⟩ := List.mem_map.mp hv
          by_cases hut : u.tid = tid
          · simp only [if_pos hut] at hvb ⊢
            have : s.turn = j := Option.some.inj hvb
            subst this
            rw [setCoin_coins_ne _ _ _ _ hne, setCoin_coins_same]
            simp [hut]
          · simp only [if_neg hut] at hvb ⊢
            exfalso
            rcases fin2_eq_or j s.turn with rfl | rfl
            · have h2 := hback u hu s.turn hvb
              rw [hatk] at h2
              cases h2
            · have h2 := hback u hu (OTHER s.turn) hvb
              rw [hdc] at h2
              exact hut (Option.some.inj h2).symm

theorem clear_erase_inv (s s' : GameState) (i : Fin 2) (h : Inv s)
    (hcoin : ∀ j, j ≠ i → (s'.coins j).carrying = (s.coins j).carrying)
    (hci : (s'.coins i).carrying = none)
    (htr : s'.treasures = (match (s.coins i).carrying with
      | some tid => s.treasures.eraseP (fun w => w.tid == tid)
      | none => s.treasures)) : Inv s' := by
  obtain ⟨hnd, hcar, hback⟩ := h
  cases hcar0 : (s.coins i).carrying with
  | none =>
    rw [hcar0] at htr
    refine ⟨by rw [htr]; exact hnd, ?_, ?_⟩
    · intro j
      by_cases hji : j = i
      · subst hji
        exact Or.inl hci
      · rw [hcoin j hji, htr]
        exact hcar j
    · intro t ht j hbj
      rw [htr] at ht
      by_cases hji : j = i
      · subst hji
        have h2 := hback t ht j hbj
        rw [hcar0] at h2
        cases h2
      · rw [hcoin j hji]
        exact hback t ht j hbj
  | some tid =>
    rw [hcar0] at htr
    refine ⟨?_, ?_, ?_⟩
    · rw [htr]
      exact hnd.sublist ((List.eraseP_sublist _).map _)
    · intro j
      by_cases hji : j = i
      · subst hji
        exact Or.inl hci
      · rw [hcoin j hji]
        rcases hcar j with hn | ⟨u, hu, hcu, hbu⟩
        · exact Or.inl hn
        · right
          have hune : u.tid ≠ tid := by
            intro he
            rcases hcar i with hni | ⟨w, hw, hcw, hbw⟩
            · rw [hcar0] at hni
              cases hni
            · rw [hcar0] at hcw
              have huw : u = w := tid_inj hnd hu hw (by rw [he, Option.some.inj hcw])
              rw [huw, hbw] at hbu
              exact hji (Option.some.inj hbu).symm
          exact ⟨u, by rw [htr]; exact mem_eraseP_tid _ u hu hune, hcu, hbu⟩
    · intro v hv j hbj
      rw [htr] at hv
      obtain ⟨hvmem, hvne⟩ := eraseP_tid_mem _ hnd v hv
      by_cases hji : j = i
      · subst hji
        have h2 := hback v hvmem j hbj
        rw [hcar0] at h2
        exact absurd (Option.some.inj h2).symm hvne
      · rw [hcoin j hji]
        exact hback v hvmem j hbj

theorem startRound_inv (p : Fin 2) (o : Oracle) (s : GameState) : Inv (startRound p o s) := by
  unfold startRound
  dsimp only
  refine inv_congr _ _ (fun i => by rw [spawnOneOfThree_coins]) (spawnOneOfThree_treasures _ _ _)
    ?_
  refine ⟨?_, ?_, ?_⟩
  · dsimp only
    split_ifs <;> simp
  · intro i
    exact Or.inl rfl
  · intro t ht j hbj
    dsimp only at ht
    split_ifs at ht with hcands
    · cases ht
    · rcases List.mem_singleton.mp ht with rfl
      cases hbj

theorem turnSwitchStep_carry (o : Oracle) (s : GameState) :
    (∀ i, ((turnSwitchStep o s).coins i).carrying = (s.coins i).carrying) ∧
    (turnSwitchStep o s).treasures = s.treasures := by
  unfold turnSwitchStep
  dsimp only
  constructor
  · intro i
    split_ifs <;> simp [spawnOneOfThree_coins]
  · split_ifs <;> simp [spawnOneOfThree_treasures]

theorem scoreFor_inv (i : Fin 2) (o : Oracle) (s : GameState) (h : Inv s) :
    Inv (scoreFor i o s) := by
  unfold scoreFor
  dsimp only
  split_ifs with hwin
  · refine clear_erase_inv s _ i h ?_ ?_ ?_
    · intro j hji
      show ((GameState.setCoin _ i _).coins j).carrying = _
      rw [setCoin_coins_ne _ _ _ _ hji]
      cases hcar0 : (s.coins i).carrying <;> rfl
    · show ((GameState.setCoin _ i _).coins i).carrying = none
      rw [setCoin_coins_same]
    · cases hcar0 : (s.coins i).carrying <;> simp [hcar0]
  · apply startRound_inv

theorem updateLogic_inv (o : Oracle) (s : GameState) (h : Inv s) : Inv (updateLogic o s) := by
  unfold updateLogic
  by_cases hmo : s.matchOver
  · rw [if_pos hmo]
    exact h
  · rw [if_neg hmo]
    dsimp only
    have h1 : Inv (moveCoins s) :=
      inv_congr _ _ (moveCoins_carry s).1 (moveCoins_carry s).2 h
    have h2 : Inv (checkItemPickup (fun i => ((s.coins i).x, (s.coins i).y)) o (moveCoins s)) :=
      inv_congr _ _ (checkItemPickup_carry _ o _).1 (checkItemPickup_carry _ o _).2 h1
    have h3 : Inv (collisionStep o (checkItemPickup (fun i => ((s.coins i).x, (s.coins i).y)) o
        (moveCoins s))) :=
      inv_congr _ _ (collisionStep_carry o _).1 (collisionStep_carry o _).2 h2
    have h4 : Inv (treasurePickupStep (collisionStep o
        (checkItemPickup (fun i => ((s.coins i).x, (s.coins i).y)) o (moveCoins s)))) :=
      pickup1_inv 1 _ (pickup1_inv 0 _ h3)
    have h5 : Inv (stealStep (treasurePickupStep (collisionStep o
        (checkItemPickup (fun i => ((s.coins i).x, (s.coins i).y)) o (moveCoins s))))) :=
      stealStep_inv _ h4
    split_ifs
    · exact scoreFor_inv 0 o _ h5
    · exact scoreFor_inv 1 o _ h5
    · exact inv_congr _ _ (turnSwitchStep_carry o _).1 (turnSwitchStep_carry o _).2 h5

/-! ### Claim C1 -/

/-- C1: the carry-consistency invariant (distinct treasure ids, `carrying`
and `carried_by` agreeing in both directions) holds in the initial state, is
established by every round reset, and is preserved by every frame update;
under it, at most one body carries a given treasure and the bidirectional
references agree. -/
theorem C1_carry_consistency :
    (∀ (obstacles : List Rect) (o : Oracle), Inv (initState obstacles o)) ∧
    (∀ (p : Fin 2) (o : Oracle) (s : GameState), Inv (startRound p o s)) ∧
    (∀ (o : Oracle) (s : GameState), Inv s → Inv (updateLogic o s)) ∧
    (∀ s : GameState, Inv s →
      (∀ (i j : Fin 2) (tid : ℕ), (s.coins i).carrying = some tid →
        (s.coins j).carrying = some tid → i = j) ∧
      (∀ (i : Fin 2) (tid : ℕ), (s.coins i).carrying = some tid →
        ∃ t ∈ s.treasures, t.tid = tid ∧ t.carriedBy = some i) ∧
      (∀ t ∈ s.treasures, ∀ i : Fin 2, t.carriedBy = some i →
        (s.coins i).carrying = some t.tid)) := by
  refine ⟨fun obstacles o => startRound_inv 0 o _, startRound_inv, updateLogic_inv, ?_⟩
  intro s h
  obtain ⟨hnd, hcar, hback⟩ := h
  refine ⟨?_, ?_, hback⟩
  · intro i j tid hi hj
    rcases hcar i with hn | ⟨u, hu, hcu, hbu⟩
    · rw [hi] at hn
      cases hn
    · rcases hcar j with hn | ⟨v, hv, hcv, hbv⟩
      · rw [hj] at hn
        cases hn
      · rw [hi] at hcu
        rw [hj] at hcv
        have huv : u = v := tid_inj hnd hu hv
          (by rw [← Option.some.inj hcu, ← Option.some.inj hcv])
        rw [huv, hbv] at hbu
        exact (Option.some.inj hbu).symm
  · intro i tid hi
    rcases hcar i with hn | ⟨u, hu, hcu, hbu⟩
    · rw [hi] at hn
      cases hn
    · rw [hi] at hcu
      exact ⟨u, hu, (Option.some.inj hcu).symm, hbu⟩

/-- Witness for `C1_carry_consistency`: the invariant-preservation part
applied at a concrete consistent state (side 1 carrying treasure 3). -/
theorem C1_carry_consistency_witness : Inv (updateLogic oW sC6) :=
  C1_carry_consistency.2.2.1 oW sC6 (by decide)

/-! ### Frame lemmas for the resting, no-interaction scenario (claim C2) -/

theorem coinUpdate_id (obs : List Rect) (c : Coin)
    (h1 : c.vx = 0) (h2 : c.vy = 0) (h3 : c.resting = true) : coinUpdate obs c = c := by
  unfold coinUpdate
  rw [if_pos ⟨by rw [h1]; norm_num [qabs, minSpeed], by rw [h2]; norm_num [qabs, minSpeed]⟩]
  obtain ⟨x, y, vx, vy, r, ca, re⟩ := c
  simp only at h1 h2 h3
  rw [h1, h2, h3]

theorem moveCoins_id (s : GameState)
    (h0 : (s.coins 0).vx = 0 ∧ (s.coins 0).vy = 0 ∧ (s.coins 0).resting = true)
    (h1 : (s.coins 1).vx = 0 ∧ (s.coins 1).vy = 0 ∧ (s.coins 1).resting = true) :
    moveCoins s = s := by
  unfold moveCoins
  have hfun : (fun i => coinUpdate s.obstacles (s.coins i)) = s.coins := by
    funext i
    fin_cases i
    · exact coinUpdate_id _ _ h0.1 h0.2.1 h0.2.2
    · exact coinUpdate_id _ _ h1.1 h1.2.1 h1.2.2
  rw [hfun]

theorem crossed_refl (s : GameState) (lp : Fin 2 → ℚ × ℚ) (ipos : ℚ × ℚ) (p : Fin 2)
    (hlp : lp p = ((s.coins p).x, (s.coins p).y)) : crossed s lp ipos p = false := by
  unfold crossed
  rw [hlp]
  dsimp only
  cases hypotLeB ((s.coins p).x - ipos.1) ((s.coins p).y - ipos.2) ((s.coins p).r + 12) <;> rfl

theorem itemStep_id_self (k : ItemKind) (lp : Fin 2 → ℚ × ℚ) (o : Oracle) (s : GameState)
    (hlp : ∀ p, lp p = ((s.coins p).x, (s.coins p).y)) : itemStep k lp o s = s := by
  unfold itemStep
  cases hslot : getSlot k s with
  | none => rfl
  | some it =>
    dsimp only
    rw [crossed_refl s lp (itemPos it) 0 (hlp 0), crossed_refl s lp (itemPos it) 1 (hlp 1)]
    rfl

theorem checkItemPickup_id (lp : Fin 2 → ℚ × ℚ) (o : Oracle) (s : GameState)
    (hlp : ∀ p, lp p = ((s.coins p).x, (s.coins p).y)) : checkItemPickup lp o s = s := by
  unfold checkItemPickup
  rw [itemStep_id_self .extra lp o s hlp, itemStep_id_self .stop lp o s hlp,
    itemStep_id_self .redirect lp o s hlp]

theorem collisionStep_id (o : Oracle) (s : GameState)
    (h : o.collDist = 0 ∨ o.collDist ≥ (s.coins 0).r + (s.coins 1).r) :
    collisionStep o s = s := by
  unfold collisionStep resolveWith
  dsimp only
  rw [if_pos h]
  have hfun : (fun i : Fin 2 => if i = 0 then s.coins 0 else s.coins 1) = s.coins := by
    funext i
    fin_cases i <;> simp
  rw [hfun]

theorem pickup1_id_nofree (i : Fin 2) (s : GameState)
    (hnf : ∀ u ∈ s.treasures, u.carriedBy ≠ none) : pickup1 i s = s := by
  by_cases hc : (s.coins i).carrying = none
  · apply pickup1_of_find_none i s hc
    rw [List.find?_eq_none]
    intro u hu
    cases hv : u.carriedBy with
    | none => exact absurd hv (hnf u hu)
    | some v => simp [pickupCondB, hv]
  · exact pickup1_of_some i s hc

theorem treasurePickupStep_id_nofree (s : GameState)
    (hnf : ∀ u ∈ s.treasures, u.carriedBy ≠ none) : treasurePickupStep s = s := by
  unfold treasurePickupStep
  rw [pickup1_id_nofree 0 s hnf, pickup1_id_nofree 1 s hnf]

theorem hypotLe_sub_symm (a b c d t : ℚ) :
    hypotLe (a - b) (c - d) t ↔ hypotLe (b - a) (d - c) t := by
  unfold hypotLe
  constructor <;> rintro ⟨h1, h2⟩ <;> exact ⟨h1, by nlinarith⟩

theorem stealStep_id_far (s : GameState)
    (hfar : ¬hypotLe ((s.coins 0).x - (s.coins 1).x) ((s.coins 0).y - (s.coins 1).y)
      stealDistance) : stealStep s = s := by
  have hfarT : ¬hypotLe ((s.coins s.turn).x - (s.coins (OTHER s.turn)).x)
      ((s.coins s.turn).y - (s.coins (OTHER s.turn)).y) stealDistance := by
    rcases fin2_eq_or s.turn 0 with h | h
    · rw [h, show OTHER (0 : Fin 2) = 1 from rfl]
      exact hfar
    · rw [show OTHER (0 : Fin 2) = 1 from rfl] at h
      rw [h, show OTHER (1 : Fin 2) = 0 from rfl]
      rw [hypotLe_sub_symm]
      exact hfar
  unfold stealStep
  dsimp only
  rw [if_neg (by simp [hypotLeB, hfarT])]

theorem getD_mod_mem {α : Type} (l : List α) (hne : l ≠ []) (k : ℕ) (d : α) :
    l.getD (k % l.length) d ∈ l := by
  have hlen : 0 < l.length := List.length_pos.mpr hne
  have hk : k % l.length < l.length := Nat.mod_lt _ hlen
  rw [List.getD_eq_getElem l d hk]
  exact List.getElem_mem hk

theorem startRound_facts (p : Fin 2) (o : Oracle) (s : GameState) :
    (startRound p o s).turn = p ∧
    (startRound p o s).awaitingSwitch = false ∧
    (startRound p o s).extraTurn = false ∧
    (startRound p o s).matchOver = s.matchOver ∧
    (startRound p o s).matchWins = s.matchWins ∧
    (∀ i, ((startRound p o s).coins i).carrying = none) ∧
    (candidateCells s.obstacles ≠ [] →
      ∃ u, (startRound p o s).treasures = [u] ∧ u.carriedBy = none ∧
        (u.row, u.col) ∈ candidateCells s.obstacles) := by
  unfold startRound
  dsimp only
  refine ⟨by rw [spawnOneOfThree_turn], by rw [spawnOneOfThree_awaitingSwitch],
    by rw [spawnOneOfThree_extraTurn], by rw [spawnOneOfThree_matchOver],
    by rw [spawnOneOfThree_matchWins], fun i => by rw [spawnOneOfThree_coins], ?_⟩
  intro hcands
  rw [spawnOneOfThree_treasures]
  dsimp only
  rw [if_neg (by simpa [List.isEmpty_iff] using hcands)]
  refine ⟨_, rfl, rfl, ?_⟩
  exact getD_mod_mem _ hcands _ _

theorem scoreFor_behavior (i : Fin 2) (o : Oracle) (s : GameState) (t : Treasure)
    (hT : s.treasures = [t]) (htidc : (s.coins i).carrying = some t.tid)
    (hoth : (s.coins (OTHER i)).carrying = none)
    (hcands : candidateCells s.obstacles ≠ []) (hmo : s.matchOver = false) :
    (scoreFor i o s).matchWins i = s.matchWins i + 1 ∧
    (scoreFor i o s).matchWins (OTHER i) = s.matchWins (OTHER i) ∧
    ((scoreFor i o s).coins i).carrying = none ∧
    ((scoreFor i o s).coins (OTHER i)).carrying = none ∧
    (roundsToWin ≤ s.matchWins i + 1 →
      (scoreFor i o s).matchOver = true ∧ (scoreFor i o s).awaitingSwitch = false ∧
      (scoreFor i o s).treasures = []) ∧
    (s.matchWins i + 1 < roundsToWin →
      (scoreFor i o s).matchOver = false ∧ (scoreFor i o s).turn = OTHER i ∧
      (scoreFor i o s).awaitingSwitch = false ∧
      ∃ u, (scoreFor i o s).treasures = [u] ∧ u.carriedBy = none ∧
        (u.row, u.col) ∈ candidateCells s.obstacles) := by
  have hne : OTHER i ≠ i := OTHER_ne i
  unfold scoreFor
  dsimp only
  rw [htidc]
  dsimp only
  rw [hT, List.eraseP_cons_of_pos (by simp)]
  have hwupd : Function.update s.matchWins i (s.matchWins i + 1) i = s.matchWins i + 1 :=
    Function.update_same i _ s.matchWins
  split_ifs with hw
  · simp only [setCoin_matchWins] at hw
    rw [hwupd] at hw
    refine ⟨?_, ?_, ?_, ?_, fun _ => ⟨rfl, rfl, rfl⟩, fun hlt => absurd hw (by omega)⟩
    · simpa using hwupd
    · simpa using Function.update_noteq hne (s.matchWins i + 1) s.matchWins
    · simp
    · rw [setCoin_coins_ne _ _ _ _ hne]
      exact hoth
  · simp only [setCoin_matchWins] at hw
    rw [hwupd] at hw
    obtain ⟨f1, f2, _, f4, f5, f6, f7⟩ := startRound_facts (OTHER i) o _
    refine ⟨?_, ?_, f6 i, f6 (OTHER i), fun hle => absurd hle hw, fun _ => ?_⟩
    · rw [f5]
      simpa using hwupd
    · rw [f5]
      simpa using Function.update_noteq hne (s.matchWins i + 1) s.matchWins
    · refine ⟨by rw [f4]; exact hmo, f1, f2, ?_⟩
      exact f7 (by simpa using hcands)

/-! ### Claim C2: scoring preempts switching -/

/-- C2 (amended): in a consistent state where body `i` carries the round's
sole treasure inside its own base, both bodies are at rest, the bodies are
farther apart than the steal distance, the bodies have the game's radius,
the collision oracle is the true inter-coin distance, and some candidate cell
is unblocked, one `update_logic` call increments side `i`'s win counter by
exactly one, removes the treasure from the active list, clears the carrying
references, and — returning before the turn-switch check — either sets
`matchOver` at the threshold or starts a new round with a fresh free treasure
in the candidate region and the opening turn handed to the other side. -/
theorem C2_scoring_preempts_switching (s : GameState) (o : Oracle) (i : Fin 2) (t : Treasure)
    (hmo : s.matchOver = false)
    (hInv : Inv s)
    (hT : s.treasures = [t])
    (hcar : t.carriedBy = some i)
    (hrest0 : (s.coins 0).vx = 0 ∧ (s.coins 0).vy = 0 ∧ (s.coins 0).resting = true)
    (hrest1 : (s.coins 1).vx = 0 ∧ (s.coins 1).vy = 0 ∧ (s.coins 1).resting = true)
    (hbase : (baseRect i).collidepoint (s.coins i).x (s.coins i).y = true)
    (hfar : ¬hypotLe ((s.coins 0).x - (s.coins 1).x) ((s.coins 0).y - (s.coins 1).y)
      stealDistance)
    (hr0 : (s.coins 0).r = 14) (hr1 : (s.coins 1).r = 14)
    (hcd : 0 ≤ o.collDist ∧ o.collDist * o.collDist =
      ((s.coins 1).x - (s.coins 0).x) * ((s.coins 1).x - (s.coins 0).x) +
      ((s.coins 1).y - (s.coins 0).y) * ((s.coins 1).y - (s.coins 0).y))
    (hcands : candidateCells s.obstacles ≠ []) :
    (updateLogic o s).matchWins i = s.matchWins i + 1 ∧
    (updateLogic o s).matchWins (OTHER i) = s.matchWins (OTHER i) ∧
    ((updateLogic o s).coins i).carrying = none ∧
    ((updateLogic o s).coins (OTHER i)).carrying = none ∧
    (roundsToWin ≤ s.matchWins i + 1 →
      (updateLogic o s).matchOver = true ∧ (updateLogic o s).awaitingSwitch = false ∧
      (updateLogic o s).treasures = []) ∧
    (s.matchWins i + 1 < roundsToWin →
      (updateLogic o s).matchOver = false ∧ (updateLogic o s).turn = OTHER i ∧
      (updateLogic o s).awaitingSwitch = false ∧
      ∃ u, (updateLogic o s).treasures = [u] ∧ u.carriedBy = none ∧
        (u.row, u.col) ∈ candidateCells s.obstacles) := by
  have htmem : t ∈ s.treasures := by
    rw [hT]
    exact List.mem_cons_self _ _
  have htidc : (s.coins i).carrying = some t.tid := hInv.2.2 t htmem i hcar
  have hothn : (s.coins (OTHER i)).carrying = none := by
    rcases hInv.2.1 (OTHER i) with hn | ⟨u, hu, _, hbu⟩
    · exact hn
    · exfalso
      rw [hT] at hu
      rcases List.mem_singleton.mp hu with rfl
      rw [hcar] at hbu
      exact OTHER_ne i (Option.some.inj hbu).symm
  have hcoll : collisionStep o s = s := by
    apply collisionStep_id
    right
    have hgt : ((s.coins 0).x - (s.coins 1).x) * ((s.coins 0).x - (s.coins 1).x) +
        ((s.coins 0).y - (s.coins 1).y) * ((s.coins 0).y - (s.coins 1).y) >
        stealDistance * stealDistance := by
      by_contra hle
      exact hfar ⟨by norm_num [stealDistance], by push_neg at hle; exact hle⟩
    rw [hr0, hr1]
    have h33 : (33 : ℚ) * 33 < o.collDist * o.collDist := by
      rw [hcd.2]
      calc (33 : ℚ) * 33 = stealDistance * stealDistance := by norm_num [stealDistance]
        _ < _ := by nlinarith [hgt]
    nlinarith [hcd.1]
  have hnofree : ∀ u ∈ s.treasures, u.carriedBy ≠ none := by
    intro u hu
    rw [hT] at hu
    rcases List.mem_singleton.mp hu with rfl
    rw [hcar]
    simp
  have hchain : stealStep (treasurePickupStep (collisionStep o (checkItemPickup
      (fun j => ((s.coins j).x, (s.coins j).y)) o (moveCoins s)))) = s := by
    rw [moveCoins_id s hrest0 hrest1, checkItemPickup_id _ o s (fun _ => rfl), hcoll,
      treasurePickupStep_id_nofree s hnofree, stealStep_id_far s hfar]
  have hfi : scoreFires s i = true := by
    simp [scoreFires, htidc, hbase]
  unfold updateLogic
  rw [if_neg (by simp [hmo])]
  dsimp only
  rw [hchain]
  rcases fin2_eq_or i 0 with rfl | h1
  · rw [if_pos hfi]
    exact scoreFor_behavior 0 o s t hT htidc hothn hcands hmo
  · rw [show OTHER (0 : Fin 2) = 1 from rfl] at h1
    subst h1
    have hnf0 : scoreFires s 0 = false := by
      have h0 : (s.coins 0).carrying = none := hothn
      simp [scoreFires, h0]
    rw [if_neg (by simp [hnf0]), if_pos hfi]
    exact scoreFor_behavior 1 o s t hT htidc hothn hcands hmo

/-- Counterexample state (a): side 1 to act, its empty body within steal
range (30 ≤ 33) of body 0, which rests at the center of its own base carrying
the sole treasure. -/
def sC2a : GameState :=
  { coins := fun i =>
      if i = 0 then ⟨85, 265, 0, 0, 14, some 5, true⟩ else ⟨115, 265, 0, 0, 14, none, true⟩,
    matchWins := fun _ => 0, turn := 1, extraTurn := false, awaitingSwitch := false,
    dragging := false, treasures := [⟨5, 2, 4, 8, some 0⟩], matchOver := false, totalTurns := 0,
    itemExtra := none, itemStop := none, itemRedirect := none, obstacles := [] }

/-- Oracle for `sC2a`: the true inter-coin distance is 30. -/
def oC2a : Oracle := ⟨30, 0, 0, 0, 0, 0, 0, 0⟩

/-- Counterexample state (b): body 0 carries the sole treasure just inside
its base (`x = 129 < 130`) but moves right at speed 16; body 1 rests far
away. -/
def sC2b : GameState :=
  { coins := fun i =>
      if i = 0 then ⟨129, 265, 16, 0, 14, some 5, false⟩ else ⟨800, 265, 0, 0, 14, none, true⟩,
    matchWins := fun _ => 0, turn := 0, extraTurn := false, awaitingSwitch := true,
    dragging := false, treasures := [⟨5, 2, 4, 8, some 0⟩], matchOver := false, totalTurns := 0,
    itemExtra := none, itemStop := none, itemRedirect := none, obstacles := [] }

/-- Oracle for `sC2b`: the true post-move inter-coin distance is 655. -/
def oC2b : Oracle := ⟨655, 0, 0, 0, 0, 0, 0, 0⟩

/-- C2, counterexample to the claim as stated: in both states body 0 carries
a treasure and its position lies inside its own base, yet one `update_logic`
call does **not** increment side 0's win counter — in (a) the other side's
body steals the treasure in the same frame before the scoring check, in (b)
the movement phase carries body 0 out of its base before the scoring
check. -/
theorem C2_scoring_counterexample :
    ((sC2a.coins 0).carrying = some 5 ∧
      (baseRect 0).collidepoint (sC2a.coins 0).x (sC2a.coins 0).y = true ∧
      sC2a.matchOver = false ∧
      (updateLogic oC2a sC2a).matchWins 0 = 0) ∧
    ((sC2b.coins 0).carrying = some 5 ∧
      (baseRect 0).collidepoint (sC2b.coins 0).x (sC2b.coins 0).y = true ∧
      sC2b.matchOver = false ∧
      (updateLogic oC2b sC2b).matchWins 0 = 0) := by
  decide

/-- Witness state for `C2_scoring_preempts_switching`: body 0 resting at its
base center with the sole treasure, body 1 resting 715 pixels away. -/
def sC2w : GameState :=
  { coins := fun i =>
      if i = 0 then ⟨85, 265, 0, 0, 14, some 5, true⟩ else ⟨800, 265, 0, 0, 14, none, true⟩,
    matchWins := fun _ => 0, turn := 0, extraTurn := false, awaitingSwitch := false,
    dragging := false, treasures := [⟨5, 2, 4, 8, some 0⟩], matchOver := false, totalTurns := 0,
    itemExtra := none, itemStop := none, itemRedirect := none, obstacles := [] }

/-- Oracle for `sC2w`: the true inter-coin distance is 715. -/
def oC2w : Oracle := ⟨715, 0, 0, 0, 0, 0, 0, 0⟩

/-- Witness for `C2_scoring_preempts_switching` at `sC2w` (win counter goes
0 → 1 < threshold, so a new round starts with side 1 opening). -/
theorem C2_scoring_preempts_switching_witness :
    (updateLogic oC2w sC2w).matchWins 0 = sC2w.matchWins 0 + 1 ∧
    (updateLogic oC2w sC2w).matchWins (OTHER 0) = sC2w.matchWins (OTHER 0) ∧
    ((updateLogic oC2w sC2w).coins 0).carrying = none ∧
    ((updateLogic oC2w sC2w).coins (OTHER 0)).carrying = none ∧
    (roundsToWin ≤ sC2w.matchWins 0 + 1 →
      (updateLogic oC2w sC2w).matchOver = true ∧
      (updateLogic oC2w sC2w).awaitingSwitch = false ∧
      (updateLogic oC2w sC2w).treasures = []) ∧
    (sC2w.matchWins 0 + 1 < roundsToWin →
      (updateLogic oC2w sC2w).matchOver = false ∧
      (updateLogic oC2w sC2w).turn = OTHER 0 ∧
      (updateLogic oC2w sC2w).awaitingSwitch = false ∧
      ∃ u, (updateLogic oC2w sC2w).treasures = [u] ∧ u.carriedBy = none ∧
        (u.row, u.col) ∈ candidateCells sC2w.obstacles) :=
  C2_scoring_preempts_switching sC2w oC2w 0 ⟨5, 2, 4, 8, some 0⟩ rfl (by decide) rfl rfl
    (by decide) (by decide) (by decide) (by decide) (by decide) (by decide) (by decide)
    (by decide)

end TreasureHunt
